import Mathlib

/-!
# cron-runtime: a verification development

`main.go` runs one external program on a cron schedule and supervises it.
The program has three kinds of threads of control:

* the main goroutine (`main`): flag parsing, scheduler set-up, then the
  shutdown orchestrator (two `select` statements);
* one goroutine per firing of the schedule, running the callback given to
  `c.AddFunc` (the execution coordinator);
* per started process, the goroutine that calls `cmd.Wait()` and closes the
  `wait` channel, and the context watcher that `os/exec` attaches to a
  command made with `exec.CommandContext`.

The embedding is an interleaving transition system.  `step` executes one
atomic action of one thread on the shared state and returns `none` when the
action is not enabled (a `select` case whose channel is not ready, a thread
that is not at that statement, a program that has exited).  An execution is
a list of actions, replayed by `run`.  What the environment decides (whether
`cmd.Start()` succeeds, when the child exits, whether an OS signal arrives,
when the kill timer expires) is carried by the action that is chosen.
Durations are not modelled, only the order of events: "the timer expires
before the completion signal fires" is the expiry of the timer in a state in
which the completion signal has not fired.

An action is one statement of `main.go`, or a straight-line block of
statements that touches no shared state in between.  In particular the
return of the callback, with its deferred calls (`log`, `cancel()`,
`close(stop)`), is one action.

Three behaviours belong to libraries and not to `main.go`:

* the scheduler dispatches firings only between `c.Start()` and `c.Stop()`,
  each in a goroutine of its own, and the context returned by `c.Stop()` is
  done once every dispatched invocation has returned;
* a command made with `exec.CommandContext` is killed by `os/exec`
  (`Process.Kill()`) when its context becomes done before `cmd.Wait()` has
  returned;
* the schedule parser, taken as a parameter.
-/

namespace CronRuntime

/-! ## Command line (`parseFlags`, `usage`, `usageError`) -/

/-- One item written to standard output by `usage` / `usageError`. -/
inductive Printed where
  | line (text : String)
  | flagDefaults
  deriving DecidableEq, Repr

/-- Termination through `os.Exit`: exit code and what was printed before. -/
structure Halt where
  code : Nat
  printed : List Printed
  deriving DecidableEq, Repr

/-- The function `flag.Arg(i)`: the i-th positional argument, or the empty
string when there is no such element. -/
def flagArg (args : List String) (i : Nat) : String :=
  args.getD i ""

/-- The slice expression `flag.Args()[n:]`: `none` stands for the run-time
panic of an out-of-range slice bound. -/
def flagArgsFrom (args : List String) (n : Nat) : Option (List String) :=
  if n ≤ args.length then some (args.drop n) else none

/-- The function `usage`: the usage line, then the flag defaults. -/
def usage : List Printed :=
  [Printed.line "Usage: cron-runtime [flags] <expression> -- program [args...]",
   Printed.flagDefaults]

/-- The function `usageError`: print the message, print the usage, `os.Exit(2)`. -/
def usageError (msg : String) : Halt :=
  { code := 2, printed := Printed.line msg :: usage }

/-- The function `parseFlags`, on the positional arguments left by
`flag.Parse()`.  `usageError` does not return, so the second test is only
reached when the first one passed. -/
def parseFlags (args : List String) : Except Halt Unit :=
  if args.length < 3 then
    Except.error (usageError "invalid number of arguments")
  else if flagArg args 1 != "--" then
    Except.error (usageError "invalid arguments")
  else
    Except.ok ()

/-! ## Configuration and state -/

/-- The three flags, the positional arguments, and the schedule parser of the
scheduling library (`cron.NewParser(SecondOptional | Minute | Hour | Dom |
Month | Dow | Descriptor)`), which is not part of this repository and is
taken as a parameter: `parses e` says whether `AddFunc` accepts `e`.
`debug` only changes the log level and the child's standard streams. -/
structure Config where
  debug : Bool
  once : Bool
  killTimeout : Int
  args : List String
  parses : String → Bool

/-- Whether the program is running, has exited with a code, or has panicked
(closing a closed channel, slicing out of range). -/
inductive Status where
  | running
  | exited (code : Nat)
  | panicked
  deriving DecidableEq, Repr

/-- Program points of `main`. -/
inductive MainPc where
  | parse        -- before `parseFlags()`
  | addFunc      -- before `c.AddFunc(flag.Arg(0), ...)`
  | cronStart    -- before `c.Start()`
  | waitSignal   -- `select { case sig = <-s: ... case <-stop: ... }`
  | stopCron     -- before `c.Stop()`
  | killSelect   -- `select { case <-cronCtx.Done(): ... case <-killTimer.C: ... }`
  | killWait     -- `<-cronCtx.Done()` after `close(kill)`
  | doneWait     -- `<-cronCtx.Done()` of the else branch
  | ended        -- `main` has returned
  deriving DecidableEq, Repr

/-- Program points of one invocation of the callback. -/
inductive JobPc where
  | entry          -- before the once guard
  | starting       -- before `cmd.Start()`
  | running        -- outer `select { case <-wait: case <-terminate: ... }`
  | interrupting   -- inner `select { case <-wait: case <-kill: ... }`
  | returned       -- the callback has returned (deferred calls done)
  deriving DecidableEq, Repr

/-- How an invocation of the callback ended. -/
inductive Outcome where
  | skipped                   -- lost the compare-and-swap, `return`
  | spawnFailed               -- `cmd.Start()` returned an error
  | completed                 -- outer select, `case <-wait`
  | completedAfterInterrupt   -- inner select, `case <-wait`
  | killWaitExpired           -- inner select, `case <-kill`
  deriving DecidableEq, Repr

/-- One invocation of the callback, with the process it manages.  The
counters record what the invocation has done so far. -/
structure Job where
  pc : JobPc
  /-- The compare-and-swap succeeded and `defer close(stop)` is registered. -/
  won : Bool
  /-- The command line given to `exec.CommandContext`. -/
  cmd : Option (String × List String)
  /-- Number of calls of `cmd.Start()`. -/
  startCalls : Nat
  /-- The call `cmd.Start()` succeeded: a child process exists. -/
  spawned : Bool
  /-- The child process has exited. -/
  procExited : Bool
  /-- The call `cmd.Wait()` has returned and `wait` is closed. -/
  waitClosed : Bool
  /-- The call `cmd.Wait()` returned an error (logged). -/
  waitErr : Bool
  /-- The outer select took `case <-terminate`. -/
  sawTerminate : Bool
  /-- Number of calls of `cmd.Process.Signal(os.Interrupt)`. -/
  interrupts : Nat
  /-- The call `cmd.Process.Signal` returned an error (logged). -/
  interruptErr : Bool
  /-- Number of calls of `Process.Kill()` by the context watcher of `os/exec`. -/
  sigkills : Nat
  /-- The deferred `cancel()` has run. -/
  ctxCancelled : Bool
  /-- Number of calls of `close(stop)` by this invocation. -/
  stopCloses : Nat
  outcome : Option Outcome
  deriving DecidableEq, Repr

/-- A freshly dispatched invocation. -/
def Job.fresh : Job :=
  { pc := JobPc.entry, won := false, cmd := none, startCalls := 0, spawned := false,
    procExited := false, waitClosed := false, waitErr := false, sawTerminate := false,
    interrupts := 0, interruptErr := false, sigkills := 0, ctxCancelled := false,
    stopCloses := 0, outcome := none }

/-- The shared state.  `terminate`, `stop` and `kill` count the calls of
`close` on the channel: a channel is closed when its count is positive, and
a second `close` panics. -/
structure State where
  status : Status
  main : MainPc
  /-- The scheduler is started and not stopped: it may dispatch firings. -/
  cronRunning : Bool
  /-- The atomic flag `ran`. -/
  ran : Bool
  terminate : Nat
  stop : Nat
  kill : Nat
  programName : String
  programArgs : List String
  /-- The invocations dispatched so far, in dispatch order. -/
  jobs : List Job
  /-- The kill timer, armed by `time.NewTimer` in front of the select, has
  expired. -/
  timerFired : Bool
  /-- The kill timer expired while the completion signal had not fired. -/
  timerFirst : Bool
  deriving DecidableEq, Repr

/-- The state when `main` is entered. -/
def State.init : State :=
  { status := Status.running, main := MainPc.parse, cronRunning := false, ran := false,
    terminate := 0, stop := 0, kill := 0, programName := "", programArgs := [],
    jobs := [], timerFired := false, timerFirst := false }

/-! ## Actions -/

/-- Atomic actions of `main`. -/
inductive MainAct where
  | parseFlags   -- lines 25-37: `parseFlags()`, `programName`, `programArgs`
  | addFunc      -- lines 50-108: `c.AddFunc`, `log.Fatal` on error
  | cronStart    -- line 110: `c.Start()`
  | osSignal     -- `case sig = <-s`: log, `close(terminate)`
  | stopSeen     -- `case <-stop`
  | cronStop     -- `c.Stop()`, then the test `*killTimeout > 0`
  | cronDone     -- `<-cronCtx.Done()`, log "cron stopped", return
  | killTimer    -- `case <-killTimer.C`: log "killing...", `close(kill)`
  deriving DecidableEq, Repr

/-- Atomic actions of the invocation with a given index, of its wait
goroutine, of its child process and of its context watcher. -/
inductive JobAct where
  | guard                        -- lines 51-56: the once guard
  | start (ok : Bool)            -- lines 58-89: `cmd.Start()` and what follows
  | procExit                     -- the child process exits
  | procWait (err : Bool)        -- `cmd.Wait()` returns, `close(wait)`
  | waitSeen                     -- `case <-wait` of either select
  | terminateSeen (ok : Bool)    -- `case <-terminate`: `Signal(os.Interrupt)`
  | killSeen                     -- `case <-kill`
  | ctxKill                      -- the context watcher calls `Process.Kill()`
  deriving DecidableEq, Repr

/-- An action of the whole program. -/
inductive Action where
  | main (m : MainAct)
  | fire                         -- the scheduler dispatches one firing
  | timerExpire                  -- the kill timer expires
  | job (i : Nat) (a : JobAct)
  deriving DecidableEq, Repr

/-! ## Transitions -/

/-- The statement `close(terminate)`. -/
def State.closeTerminate (s : State) : State :=
  { s with terminate := s.terminate + 1,
           status := if 0 < s.terminate then Status.panicked else s.status }

/-- The statement `close(stop)`. -/
def State.closeStop (s : State) : State :=
  { s with stop := s.stop + 1,
           status := if 0 < s.stop then Status.panicked else s.status }

/-- The statement `close(kill)`. -/
def State.closeKill (s : State) : State :=
  { s with kill := s.kill + 1,
           status := if 0 < s.kill then Status.panicked else s.status }

/-- Replace the invocation with index `i`. -/
def State.setJob (s : State) (i : Nat) (j : Job) : State :=
  { s with jobs := s.jobs.set i j }

/-- The local effect of returning from the callback after the once guard:
the deferred `cancel()` runs, then the deferred `close(stop)` when it was
registered. -/
def Job.finish (j : Job) (o : Outcome) : Job :=
  { j with pc := JobPc.returned, outcome := some o, ctxCancelled := true,
           stopCloses := j.stopCloses + (if j.won then 1 else 0) }

/-- Return from the callback after the once guard: the deferred calls run in
reverse order of registration (`log`, `cancel()`, `close(stop)`), and the
invocation is over.  The result is the shared state and the invocation. -/
def finishJob (s : State) (j : Job) (o : Outcome) : State × Job :=
  (if j.won then s.closeStop else s, j.finish o)

/-- Modelled from the spec: the completion signal of the scheduling library,
which is not part of this repository.  The call `c.Stop()` "returns a signal
that completes once any already-dispatched callback invocation has
returned": `cronCtx.Done()` can be received when every dispatched invocation
has returned. -/
def State.allReturned (s : State) : Bool :=
  s.jobs.all (fun j => j.pc == JobPc.returned)

/-- The expiry of the kill timer.  `time.NewTimer` is called with a positive
duration right in front of the select, so the timer can only expire while
`main` is at that select, and it expires once.  The state records whether
the completion signal had fired by then. -/
def State.timerExpire (s : State) : Option State :=
  if s.main = MainPc.killSelect ∧ s.timerFired = false then
    some { s with timerFired := true, timerFirst := !s.allReturned }
  else none

/-- One action of `main`.

At the select on `cronCtx.Done()` and `killTimer.C` the goroutine is blocked
until one of the two communications is ready, and proceeds with the one that
became ready first: with the timer case when the timer expired while the
completion signal had not fired (`timerFirst`), with the completion case
when the completion signal fired and the timer had not expired before. -/
def stepMain (cfg : Config) (s : State) : MainAct → Option State
  | MainAct.parseFlags =>
    if s.main = MainPc.parse then
      match parseFlags cfg.args with
      | Except.error h => some { s with status := Status.exited h.code }
      | Except.ok _ =>
        match flagArgsFrom cfg.args 3 with
        | none => some { s with status := Status.panicked }
        | some rest =>
          some { s with programName := flagArg cfg.args 2, programArgs := rest,
                        main := MainPc.addFunc }
    else none
  | MainAct.addFunc =>
    if s.main = MainPc.addFunc then
      if cfg.parses (flagArg cfg.args 0) then some { s with main := MainPc.cronStart }
      else some { s with status := Status.exited 1 }
    else none
  | MainAct.cronStart =>
    if s.main = MainPc.cronStart then
      some { s with cronRunning := true, main := MainPc.waitSignal }
    else none
  | MainAct.osSignal =>
    if s.main = MainPc.waitSignal then
      some { s.closeTerminate with main := MainPc.stopCron }
    else none
  | MainAct.stopSeen =>
    if s.main = MainPc.waitSignal ∧ 0 < s.stop then
      some { s with main := MainPc.stopCron }
    else none
  | MainAct.cronStop =>
    if s.main = MainPc.stopCron then
      some { s with cronRunning := false,
                    main := if 0 < cfg.killTimeout then MainPc.killSelect
                            else MainPc.doneWait }
    else none
  | MainAct.cronDone =>
    if ((s.main = MainPc.killSelect ∧ s.timerFirst = false) ∨ s.main = MainPc.killWait ∨
          s.main = MainPc.doneWait)
        ∧ s.allReturned = true then
      some { s with main := MainPc.ended, status := Status.exited 0 }
    else none
  | MainAct.killTimer =>
    if s.main = MainPc.killSelect ∧ s.timerFirst = true then
      some { s.closeKill with main := MainPc.killWait }
    else none

/-- One action of the invocation `j`, or of the goroutines and the process
attached to it; the result is the shared state and the invocation after the
action.

The last case, `JobAct.ctxKill`, is not a statement of `main.go`: it is the
goroutine that `cmd.Start()` of `os/exec` starts for a command made with
`exec.CommandContext` on a context that can be cancelled.  As documented for
`exec.CommandContext`, the context "is used to interrupt the process (by
calling cmd.Cancel or os.Process.Kill) if the context becomes done before
the command completes on its own": when the context is done and `cmd.Wait()`
has not returned, the library calls `Process.Kill()` on the child, once. -/
def stepJob (cfg : Config) (s : State) (j : Job) : JobAct → Option (State × Job)
  | JobAct.guard =>
    if j.pc = JobPc.entry then
      if cfg.once then
        if s.ran then
          some (s, { j with pc := JobPc.returned, outcome := some Outcome.skipped })
        else
          some ({ s with ran := true }, { j with pc := JobPc.starting, won := true })
      else
        some (s, { j with pc := JobPc.starting })
    else none
  | JobAct.start ok =>
    if j.pc = JobPc.starting then
      if ok then
        some (s, { j with cmd := some (s.programName, s.programArgs),
                          startCalls := j.startCalls + 1,
                          spawned := true, pc := JobPc.running })
      else
        some (finishJob s { j with cmd := some (s.programName, s.programArgs),
                                   startCalls := j.startCalls + 1 }
                Outcome.spawnFailed)
    else none
  | JobAct.procExit =>
    if j.spawned = true ∧ j.procExited = false then
      some (s, { j with procExited := true })
    else none
  | JobAct.procWait err =>
    if j.procExited = true ∧ j.waitClosed = false then
      some (s, { j with waitClosed := true, waitErr := err })
    else none
  | JobAct.waitSeen =>
    if j.waitClosed = true then
      match j.pc with
      | JobPc.running => some (finishJob s j Outcome.completed)
      | JobPc.interrupting => some (finishJob s j Outcome.completedAfterInterrupt)
      | _ => none
    else none
  | JobAct.terminateSeen ok =>
    if j.pc = JobPc.running ∧ 0 < s.terminate then
      some (s, { j with pc := JobPc.interrupting, sawTerminate := true,
                        interrupts := j.interrupts + 1, interruptErr := !ok })
    else none
  | JobAct.killSeen =>
    if j.pc = JobPc.interrupting ∧ 0 < s.kill then
      some (finishJob s j Outcome.killWaitExpired)
    else none
  | JobAct.ctxKill =>
    if j.spawned = true ∧ j.ctxCancelled = true ∧ j.waitClosed = false ∧ j.sigkills = 0 then
      some (s, { j with sigkills := j.sigkills + 1 })
    else none

/-- Modelled from the spec: the dispatch of one firing by the scheduling
library, which is not part of this repository.  The scheduler fires the
callback only between `c.Start()` and `c.Stop()` ("`stop()` on the handle
prevents any future firing"), each firing in a goroutine of its own, without
waiting for earlier firings. -/
def State.fire (s : State) : Option State :=
  if s.cronRunning = true then some { s with jobs := s.jobs ++ [Job.fresh] } else none

/-- One action of the program.  Nothing happens once the program has exited
or panicked. -/
def step (cfg : Config) (s : State) (a : Action) : Option State :=
  if s.status = Status.running then
    match a with
    | Action.main m => stepMain cfg s m
    | Action.fire => s.fire
    | Action.timerExpire => s.timerExpire
    | Action.job i b =>
      match s.jobs[i]? with
      | none => none
      | some j =>
        match stepJob cfg s j b with
        | none => none
        | some (s1, j1) => some (s1.setJob i j1)
  else none

/-- Replay a list of actions from a state; `none` when one of them is not
enabled where it is taken. -/
def runFrom (cfg : Config) (s : State) : List Action → Option State
  | [] => some s
  | a :: as =>
    match step cfg s a with
    | none => none
    | some s1 => runFrom cfg s1 as

/-- An execution of the program: a replay from the initial state. -/
def run (cfg : Config) (as : List Action) : Option State :=
  runFrom cfg State.init as

/-! ## Invariants -/

/-- The invariant of one invocation: how its counters and flags are tied to
its program point and outcome, given the once flag, the `ran` flag and the
close counts of `terminate` and `kill`. -/
structure JobOk (cfg : Config) (ran : Bool) (term kill : Nat) (j : Job) : Prop where
  won_once : j.won = true → cfg.once = true ∧ ran = true
  at_entry : j.pc = JobPc.entry → j = Job.fresh
  won_eq : j.pc ≠ JobPc.entry → j.outcome ≠ some Outcome.skipped → j.won = cfg.once
  skipped : j.outcome = some Outcome.skipped →
    cfg.once = true ∧ ran = true ∧
      j = { Job.fresh with pc := JobPc.returned, outcome := some Outcome.skipped }
  outcome_none : j.outcome = none ↔ j.pc ≠ JobPc.returned
  starts : j.startCalls =
    if j.pc = JobPc.entry ∨ j.pc = JobPc.starting ∨ j.outcome = some Outcome.skipped then 0 else 1
  cmd : j.cmd = if j.startCalls = 0 then none else some (flagArg cfg.args 2, cfg.args.drop 3)
  spawned : j.spawned = true ↔
    (j.pc = JobPc.running ∨ j.pc = JobPc.interrupting ∨ j.outcome = some Outcome.completed ∨
      j.outcome = some Outcome.completedAfterInterrupt ∨
      j.outcome = some Outcome.killWaitExpired)
  exited : j.procExited = true → j.spawned = true
  waited : j.waitClosed = true → j.procExited = true
  wait_err : j.waitErr = true → j.waitClosed = true
  saw : j.sawTerminate = true ↔
    (j.pc = JobPc.interrupting ∨ j.outcome = some Outcome.completedAfterInterrupt ∨
      j.outcome = some Outcome.killWaitExpired)
  interrupts : j.interrupts = if j.sawTerminate = true then 1 else 0
  interrupt_err : j.interruptErr = true → j.sawTerminate = true
  saw_term : j.sawTerminate = true → 0 < term
  kwe_kill : j.outcome = some Outcome.killWaitExpired → 0 < kill
  completed_wait : (j.outcome = some Outcome.completed ∨
      j.outcome = some Outcome.completedAfterInterrupt) → j.waitClosed = true
  sigkills_le : j.sigkills ≤ 1
  sigkills_pos : 0 < j.sigkills → j.outcome = some Outcome.killWaitExpired
  cancelled : j.ctxCancelled = true ↔ (j.pc = JobPc.returned ∧ j.outcome ≠ some Outcome.skipped)
  stop_closes : j.stopCloses = if j.ctxCancelled = true ∧ j.won = true then 1 else 0


/-- What an action of one invocation may change in the shared state. -/
structure JobFrame (s : State) (j : Job) (s1 : State) (j1 : Job) : Prop where
  main_eq : s1.main = s.main
  cron_eq : s1.cronRunning = s.cronRunning
  term_eq : s1.terminate = s.terminate
  kill_eq : s1.kill = s.kill
  name_eq : s1.programName = s.programName
  args_eq : s1.programArgs = s.programArgs
  jobs_eq : s1.jobs = s.jobs
  fired_eq : s1.timerFired = s.timerFired
  first_eq : s1.timerFirst = s.timerFirst
  ran_eq : s1.ran = (s.ran || (j1.won && !j.won))
  won_keep : j.won = true → j1.won = true
  won_new : j1.won = true → j.won = false → s.ran = false
  won_new_pc : j1.won = true → j.won = false → j1.pc = JobPc.starting
  pc_ret : j.pc = JobPc.returned → j1.pc = JobPc.returned
  stop_eq : s1.stop = s.stop +
    (if j.won = true ∧ j.pc ≠ JobPc.returned ∧ j1.pc = JobPc.returned then 1 else 0)
  status_eq : s1.status =
    if (j.won = true ∧ j.pc ≠ JobPc.returned ∧ j1.pc = JobPc.returned) ∧ 0 < s.stop
    then Status.panicked else s.status


/-- The invariant of the whole program. -/
structure ProgInv (cfg : Config) (s : State) : Prop where
  not_panicked : s.status ≠ Status.panicked
  jobs_ok : ∀ (i : Nat) (j : Job), s.jobs[i]? = some j → JobOk cfg s.ran s.terminate s.kill j
  won_unique : ∀ (i k : Nat) (a b : Job), s.jobs[i]? = some a → s.jobs[k]? = some b →
    a.won = true → b.won = true → i = k
  ran_won : s.ran = true → ∃ (i : Nat) (a : Job), s.jobs[i]? = some a ∧ a.won = true
  stop_open : ∀ (i : Nat) (a : Job), s.jobs[i]? = some a → a.won = true → a.pc ≠ JobPc.returned → s.stop = 0
  stop_done : ∀ (i : Nat) (a : Job), s.jobs[i]? = some a → a.won = true →
    a.pc = JobPc.returned → s.stop = 1
  stop_le : s.stop ≤ 1
  stop_closed : 0 < s.stop →
    ∃ (i : Nat) (a : Job), s.jobs[i]? = some a ∧ a.won = true ∧ a.pc = JobPc.returned
  program : s.main ≠ MainPc.parse →
    parseFlags cfg.args = (Except.ok () : Except Halt Unit) ∧ s.programName = flagArg cfg.args 2 ∧
      s.programArgs = cfg.args.drop 3
  accepted : s.main ≠ MainPc.parse → s.main ≠ MainPc.addFunc →
    cfg.parses (flagArg cfg.args 0) = true
  early : s.main = MainPc.parse ∨ s.main = MainPc.addFunc ∨ s.main = MainPc.cronStart →
    s.jobs = [] ∧ s.ran = false ∧ s.terminate = 0 ∧ s.stop = 0 ∧ s.kill = 0
  cron : s.cronRunning = true ↔ (s.main = MainPc.waitSignal ∨ s.main = MainPc.stopCron)
  term_le : s.terminate ≤ 1
  term_wait : s.main = MainPc.waitSignal → s.terminate = 0
  woken : s.main = MainPc.stopCron ∨ s.main = MainPc.killSelect ∨ s.main = MainPc.killWait ∨
    s.main = MainPc.doneWait ∨ s.main = MainPc.ended → 0 < s.terminate ∨ 0 < s.stop
  kill_le : s.kill ≤ 1
  kill_pos : 0 < s.kill →
    0 < cfg.killTimeout ∧ (s.main = MainPc.killWait ∨ s.main = MainPc.ended)
  kill_wait : s.main = MainPc.killWait → s.kill = 1
  kill_select : s.main = MainPc.killSelect → 0 < cfg.killTimeout
  done_wait : s.main = MainPc.doneWait → cfg.killTimeout ≤ 0
  exit_code : ∀ c, s.status = Status.exited c →
    (c = 2 ∧ s.main = MainPc.parse ∧ parseFlags cfg.args ≠ (Except.ok () : Except Halt Unit)) ∨
    (c = 1 ∧ s.main = MainPc.addFunc ∧ cfg.parses (flagArg cfg.args 0) = false) ∨
    (c = 0 ∧ s.main = MainPc.ended)
  ended : s.main = MainPc.ended → s.status = Status.exited 0 ∧ s.allReturned = true
  first_fired : s.timerFirst = true → s.timerFired = true
  fired_main : s.timerFired = true →
    s.main = MainPc.killSelect ∨ s.main = MainPc.killWait ∨ s.main = MainPc.ended
  first_kill : s.timerFirst = true →
    0 < cfg.killTimeout ∧ (s.main = MainPc.killSelect ∨ 0 < s.kill)
  kill_first : 0 < s.kill → s.timerFirst = true

/-! ## Example configurations and executions -/

def exampleArgs : List String := ["*/2 * * * * *", "--", "sleep", "100"]

/-- Recurring mode with a kill timeout of one second. -/
def cfgRecurring : Config :=
  { debug := false, once := false, killTimeout := 1, args := exampleArgs,
    parses := fun _ => true }

/-- Single-shot mode with a kill timeout of five seconds. -/
def cfgOnce : Config :=
  { debug := false, once := true, killTimeout := 5, args := exampleArgs,
    parses := fun _ => true }

/-- A configuration whose schedule expression the parser rejects. -/
def cfgBadSchedule : Config :=
  { debug := false, once := false, killTimeout := 0, args := exampleArgs,
    parses := fun _ => false }

/-- The start of every execution that reaches the scheduler. -/
def startup : List Action :=
  [Action.main MainAct.parseFlags, Action.main MainAct.addFunc, Action.main MainAct.cronStart]

/-- One firing starts a process; an OS signal arrives; the process is
interrupted and does not exit. -/
def interruptedRun : List Action :=
  startup ++ [Action.fire, Action.job 0 JobAct.guard, Action.job 0 (JobAct.start true),
    Action.main MainAct.osSignal, Action.job 0 (JobAct.terminateSeen true),
    Action.main MainAct.cronStop]

/-- The kill timer expires first, the coordinator takes the kill case and
returns. -/
def killedRun : List Action :=
  interruptedRun ++ [Action.timerExpire, Action.main MainAct.killTimer,
    Action.job 0 JobAct.killSeen]

/-- The execution `killedRun`, then the context watcher acts on the
cancelled context. -/
def forcefulKillRun : List Action :=
  killedRun ++ [Action.job 0 JobAct.ctxKill]

/-- The interrupted process exits before the kill timer expires and the
program ends. -/
def gracefulRun : List Action :=
  interruptedRun ++ [Action.job 0 JobAct.procExit, Action.job 0 (JobAct.procWait true),
    Action.job 0 JobAct.waitSeen, Action.main MainAct.cronDone]

/-- Three firings; the second one to reach the guard wins it, and its
`cmd.Start()` fails. -/
def threeFirings : List Action :=
  startup ++ [Action.fire, Action.fire, Action.fire, Action.job 1 JobAct.guard,
    Action.job 0 JobAct.guard, Action.job 2 JobAct.guard, Action.job 1 (JobAct.start false)]

/-- One firing whose `cmd.Start()` fails, in recurring mode. -/
def failedStart : List Action :=
  startup ++ [Action.fire, Action.job 0 JobAct.guard]

/-- Two firings in single-shot mode; the second one wins the guard and its
`cmd.Start()` succeeds. -/
def onceStarted : List Action :=
  startup ++ [Action.fire, Action.fire, Action.job 1 JobAct.guard,
    Action.job 0 JobAct.guard, Action.job 1 (JobAct.start true)]

/-- The state reached by an execution (the initial state when the list of
actions is not an execution). -/
def stateAfter (cfg : Config) (as : List Action) : State :=
  (run cfg as).getD State.init

/-- The invocation with index `i` in the state reached by an execution. -/
def jobAfter (cfg : Config) (as : List Action) (i : Nat) : Job :=
  (stateAfter cfg as).jobs.getD i Job.fresh

/-! ## Counts over all invocations -/

/-- Total number of calls of `cmd.Start()`. -/
def State.startCalls (s : State) : Nat :=
  (s.jobs.map Job.startCalls).sum

/-- Number of child processes created (successful calls of `cmd.Start()`). -/
def State.processes (s : State) : Nat :=
  s.jobs.countP (fun j => j.spawned)

/-- Number of invocations that won the compare-and-swap on `ran`. -/
def State.winners (s : State) : Nat :=
  s.jobs.countP (fun j => j.won)

/-- Total number of calls of `close(stop)`. -/
def State.stopCloses (s : State) : Nat :=
  (s.jobs.map Job.stopCloses).sum

/-- An invocation that lost the compare-and-swap and returned at once. -/
def Job.skippedAtGuard : Job :=
  { Job.fresh with pc := JobPc.returned, outcome := some Outcome.skipped }

/-- A state that no execution reaches, in which `kill` is closed, `terminate`
is open and one invocation is at the outer select with a closed `wait`. -/
def killBeforeTerminate : State :=
  { State.init with
    main := MainPc.killWait, kill := 1,
    jobs := [{ Job.fresh with pc := JobPc.running, startCalls := 1, spawned := true,
                              procExited := true, waitClosed := true }] }

/-! ## Lists -/

theorem getElem?_set_some {α : Type} (l : List α) (i p : Nat) (x a : α)
    (h : (l.set i x)[p]? = some a) :
    (p = i ∧ a = x ∧ i < l.length) ∨ (p ≠ i ∧ l[p]? = some a) := by
  by_cases hp : i = p
  · subst hp
    by_cases hl : i < l.length
    · rw [List.getElem?_set_self hl] at h
      left; exact ⟨rfl, (Option.some.inj h).symm, hl⟩
    · rw [List.getElem?_eq_none (by simpa using hl)] at h
      cases h
  · rw [List.getElem?_set_ne hp] at h
    right; exact ⟨fun e => hp e.symm, h⟩

theorem getElem?_snoc_some {α : Type} (l : List α) (p : Nat) (x a : α)
    (h : (l ++ [x])[p]? = some a) :
    l[p]? = some a ∨ (p = l.length ∧ a = x) := by
  by_cases hp : p < l.length
  · rw [List.getElem?_append_left hp] at h
    left; exact h
  · have hp2 : l.length ≤ p := Nat.le_of_not_lt hp
    rw [List.getElem?_append_right hp2] at h
    cases hq : p - l.length with
    | zero =>
      rw [hq] at h
      right; exact ⟨by omega, by simpa using h.symm⟩
    | succ n =>
      rw [hq] at h
      simp at h


/-! ## The invariant of one invocation -/

theorem jobOk_fresh (cfg : Config) (ran : Bool) (term kill : Nat) :
    JobOk cfg ran term kill Job.fresh := by
  constructor <;> simp [Job.fresh]

theorem jobOk_mono {cfg : Config} {ran ran1 : Bool} {term term1 kill kill1 : Nat} {j : Job}
    (h : JobOk cfg ran term kill j) (hr : ran = true → ran1 = true) (ht : term ≤ term1)
    (hk : kill ≤ kill1) : JobOk cfg ran1 term1 kill1 j :=
  { h with
    won_once := fun hw => ⟨(h.won_once hw).1, hr (h.won_once hw).2⟩
    skipped := fun hs => ⟨(h.skipped hs).1, hr (h.skipped hs).2.1, (h.skipped hs).2.2⟩
    saw_term := fun hs => Nat.lt_of_lt_of_le (h.saw_term hs) ht
    kwe_kill := fun hs => Nat.lt_of_lt_of_le (h.kwe_kill hs) hk }

theorem jobOk_start {cfg : Config} {ran : Bool} {term kill : Nat} {j : Job}
    (hj : JobOk cfg ran term kill j) (hpc : j.pc = JobPc.starting) :
    JobOk cfg ran term kill
      { j with cmd := some (flagArg cfg.args 2, cfg.args.drop 3),
               startCalls := j.startCalls + 1, spawned := true, pc := JobPc.running } := by
  obtain ⟨h1, h2, h3, h4, h5, h6, h7, h8, h9, h10, h11, h12, h13, h14, h15, h16, h17, h18,
    h19, h20, h21⟩ := hj
  simp only [*] at *
  simp at *
  constructor <;> first | (simp [*]; done) | simp_all

theorem jobOk_spawnFailed {cfg : Config} {ran : Bool} {term kill : Nat} {j : Job}
    (hj : JobOk cfg ran term kill j) (hpc : j.pc = JobPc.starting) :
    JobOk cfg ran term kill
      (Job.finish { j with cmd := some (flagArg cfg.args 2, cfg.args.drop 3),
                           startCalls := j.startCalls + 1 } Outcome.spawnFailed) := by
  obtain ⟨h1, h2, h3, h4, h5, h6, h7, h8, h9, h10, h11, h12, h13, h14, h15, h16, h17, h18,
    h19, h20, h21⟩ := hj
  simp only [Job.finish, *] at *
  simp at *
  constructor <;> first | (simp [*]; done) | simp_all

theorem jobOk_procExit {cfg : Config} {ran : Bool} {term kill : Nat} {j : Job}
    (hj : JobOk cfg ran term kill j) (hsp : j.spawned = true) :
    JobOk cfg ran term kill
      { j with procExited := true } := by
  have hne : j.pc ≠ JobPc.entry := fun h => by
    have hf := hj.at_entry h
    rw [hf] at hsp
    simp [Job.fresh] at hsp
  have hns : j.outcome ≠ some Outcome.skipped := fun h => by
    have hf := (hj.skipped h).2.2
    rw [hf] at hsp
    simp [Job.fresh] at hsp
  obtain ⟨h1, h2, h3, h4, h5, h6, h7, h8, h9, h10, h11, h12, h13, h14, h15, h16, h17, h18,
    h19, h20, h21⟩ := hj
  simp only [*] at *
  simp at *
  constructor <;> first | (simp [*]; done) | simp_all

theorem jobOk_procWait {cfg : Config} {ran : Bool} {term kill : Nat} {j : Job}
    (hj : JobOk cfg ran term kill j) (hex : j.procExited = true) (err : Bool) :
    JobOk cfg ran term kill
      { j with waitClosed := true, waitErr := err } := by
  have hsp := hj.exited hex
  have hne : j.pc ≠ JobPc.entry := fun h => by
    have hf := hj.at_entry h
    rw [hf] at hsp
    simp [Job.fresh] at hsp
  have hns : j.outcome ≠ some Outcome.skipped := fun h => by
    have hf := (hj.skipped h).2.2
    rw [hf] at hsp
    simp [Job.fresh] at hsp
  obtain ⟨h1, h2, h3, h4, h5, h6, h7, h8, h9, h10, h11, h12, h13, h14, h15, h16, h17, h18,
    h19, h20, h21⟩ := hj
  simp only [*] at *
  simp at *
  constructor <;> first | (simp [*]; done) | simp_all

theorem jobOk_completed {cfg : Config} {ran : Bool} {term kill : Nat} {j : Job}
    (hj : JobOk cfg ran term kill j) (hpc : j.pc = JobPc.running) (hw : j.waitClosed = true) :
    JobOk cfg ran term kill
      (Job.finish j Outcome.completed) := by
  obtain ⟨h1, h2, h3, h4, h5, h6, h7, h8, h9, h10, h11, h12, h13, h14, h15, h16, h17, h18,
    h19, h20, h21⟩ := hj
  simp only [Job.finish, *] at *
  simp at *
  constructor <;> first | (simp [*]; done) | simp_all

theorem jobOk_completedAfterInterrupt {cfg : Config} {ran : Bool} {term kill : Nat} {j : Job}
    (hj : JobOk cfg ran term kill j) (hpc : j.pc = JobPc.interrupting) (hw : j.waitClosed = true) :
    JobOk cfg ran term kill
      (Job.finish j Outcome.completedAfterInterrupt) := by
  obtain ⟨h1, h2, h3, h4, h5, h6, h7, h8, h9, h10, h11, h12, h13, h14, h15, h16, h17, h18,
    h19, h20, h21⟩ := hj
  simp only [Job.finish, *] at *
  simp at *
  constructor <;> first | (simp [*]; done) | simp_all

theorem jobOk_terminateSeen {cfg : Config} {ran : Bool} {term kill : Nat} {j : Job}
    (hj : JobOk cfg ran term kill j) (hpc : j.pc = JobPc.running) (ht : 0 < term) (ok : Bool) :
    JobOk cfg ran term kill
      { j with pc := JobPc.interrupting, sawTerminate := true,
               interrupts := j.interrupts + 1, interruptErr := !ok } := by
  obtain ⟨h1, h2, h3, h4, h5, h6, h7, h8, h9, h10, h11, h12, h13, h14, h15, h16, h17, h18,
    h19, h20, h21⟩ := hj
  simp only [*] at *
  simp at *
  constructor <;> first | (simp [*]; done) | simp_all

theorem jobOk_killSeen {cfg : Config} {ran : Bool} {term kill : Nat} {j : Job}
    (hj : JobOk cfg ran term kill j) (hpc : j.pc = JobPc.interrupting) (hk : 0 < kill) :
    JobOk cfg ran term kill
      (Job.finish j Outcome.killWaitExpired) := by
  obtain ⟨h1, h2, h3, h4, h5, h6, h7, h8, h9, h10, h11, h12, h13, h14, h15, h16, h17, h18,
    h19, h20, h21⟩ := hj
  simp only [Job.finish, *] at *
  simp at *
  constructor <;> first | (simp [*]; done) | simp_all

theorem jobOk_ctxKill {cfg : Config} {ran : Bool} {term kill : Nat} {j : Job}
    (hj : JobOk cfg ran term kill j) (hsp : j.spawned = true) (hc : j.ctxCancelled = true) (hw : j.waitClosed = false) (hz : j.sigkills = 0) :
    JobOk cfg ran term kill
      { j with sigkills := j.sigkills + 1 } := by
  have hne : j.pc ≠ JobPc.entry := fun h => by
    have hf := hj.at_entry h
    rw [hf] at hsp
    simp [Job.fresh] at hsp
  have hns : j.outcome ≠ some Outcome.skipped := fun h => by
    have hf := (hj.skipped h).2.2
    rw [hf] at hsp
    simp [Job.fresh] at hsp
  obtain ⟨h1, h2, h3, h4, h5, h6, h7, h8, h9, h10, h11, h12, h13, h14, h15, h16, h17, h18,
    h19, h20, h21⟩ := hj
  simp only [*] at *
  simp at *
  constructor <;> first | (simp [*]; done) | simp_all


theorem jobOk_guard_skip {cfg : Config} {term kill : Nat} (ho : cfg.once = true) :
    JobOk cfg true term kill
      { Job.fresh with pc := JobPc.returned, outcome := some Outcome.skipped } := by
  constructor <;> simp [Job.fresh, ho]

theorem jobOk_guard_win {cfg : Config} {term kill : Nat} (ho : cfg.once = true) :
    JobOk cfg true term kill { Job.fresh with pc := JobPc.starting, won := true } := by
  constructor <;> simp [Job.fresh, ho]

theorem jobOk_guard_pass {cfg : Config} {ran : Bool} {term kill : Nat}
    (ho : cfg.once = false) :
    JobOk cfg ran term kill { Job.fresh with pc := JobPc.starting } := by
  constructor <;> simp [Job.fresh, ho]

theorem stepJob_jobOk {cfg : Config} {s s1 : State} {j j1 : Job} {b : JobAct}
    (hj : JobOk cfg s.ran s.terminate s.kill j)
    (hn : s.programName = flagArg cfg.args 2) (ha : s.programArgs = cfg.args.drop 3)
    (h : stepJob cfg s j b = some (s1, j1)) :
    JobOk cfg s1.ran s1.terminate s1.kill j1 := by
  cases b <;> simp only [stepJob, finishJob] at h
  case guard =>
    split at h
    · rename_i hpc
      have hf := hj.at_entry hpc
      subst hf
      split at h
      · rename_i ho
        split at h
        · rename_i hr
          simp only [Option.some.injEq, Prod.mk.injEq] at h
          obtain ⟨rfl, rfl⟩ := h
          rw [hr]
          exact jobOk_guard_skip ho
        · simp only [Option.some.injEq, Prod.mk.injEq] at h
          obtain ⟨rfl, rfl⟩ := h
          exact jobOk_guard_win ho
      · rename_i ho
        simp only [Option.some.injEq, Prod.mk.injEq] at h
        obtain ⟨rfl, rfl⟩ := h
        exact jobOk_guard_pass (by simpa using ho)
    · cases h
  case start ok =>
    split at h
    · rename_i hpc
      rw [hn, ha] at h
      split at h
      · simp only [Option.some.injEq, Prod.mk.injEq] at h
        obtain ⟨rfl, rfl⟩ := h
        exact jobOk_start hj hpc
      · simp only [Option.some.injEq, Prod.mk.injEq] at h
        obtain ⟨rfl, rfl⟩ := h
        have hr := jobOk_spawnFailed hj hpc
        split <;> exact hr
    · cases h
  case procExit =>
    split at h
    · rename_i hg
      simp only [Option.some.injEq, Prod.mk.injEq] at h
      obtain ⟨rfl, rfl⟩ := h
      exact jobOk_procExit hj hg.1
    · cases h
  case procWait err =>
    split at h
    · rename_i hg
      simp only [Option.some.injEq, Prod.mk.injEq] at h
      obtain ⟨rfl, rfl⟩ := h
      exact jobOk_procWait hj hg.1 err
    · cases h
  case waitSeen =>
    split at h
    · rename_i hw
      split at h
      · rename_i hpc
        simp only [Option.some.injEq, Prod.mk.injEq] at h
        obtain ⟨rfl, rfl⟩ := h
        have hr := jobOk_completed hj hpc hw
        split <;> exact hr
      · rename_i hpc
        simp only [Option.some.injEq, Prod.mk.injEq] at h
        obtain ⟨rfl, rfl⟩ := h
        have hr := jobOk_completedAfterInterrupt hj hpc hw
        split <;> exact hr
      · cases h
    · cases h
  case terminateSeen ok =>
    split at h
    · rename_i hg
      simp only [Option.some.injEq, Prod.mk.injEq] at h
      obtain ⟨rfl, rfl⟩ := h
      exact jobOk_terminateSeen hj hg.1 hg.2 ok
    · cases h
  case killSeen =>
    split at h
    · rename_i hg
      simp only [Option.some.injEq, Prod.mk.injEq] at h
      obtain ⟨rfl, rfl⟩ := h
      have hr := jobOk_killSeen hj hg.1 hg.2
      split <;> exact hr
    · cases h
  case ctxKill =>
    split at h
    · rename_i hg
      simp only [Option.some.injEq, Prod.mk.injEq] at h
      obtain ⟨rfl, rfl⟩ := h
      exact jobOk_ctxKill hj hg.1 hg.2.1 hg.2.2.1 hg.2.2.2
    · cases h


/-! ## What a step of an invocation leaves unchanged -/

theorem stepJob_frame {cfg : Config} {s s1 : State} {j j1 : Job} {b : JobAct}
    (he : j.pc = JobPc.entry → j.won = false)
    (h : stepJob cfg s j b = some (s1, j1)) : JobFrame s j s1 j1 := by
  cases b <;> simp only [stepJob, finishJob] at h
  case guard =>
    split at h
    · rename_i hpc
      have hw := he hpc
      split at h
      · split at h
        · rename_i hr
          simp only [Option.some.injEq, Prod.mk.injEq] at h
          obtain ⟨rfl, rfl⟩ := h
          constructor <;> simp [hpc, hr, hw]
        · rename_i hr
          simp only [Option.some.injEq, Prod.mk.injEq] at h
          obtain ⟨rfl, rfl⟩ := h
          constructor <;> simp [hpc, hr, hw]
      · simp only [Option.some.injEq, Prod.mk.injEq] at h
        obtain ⟨rfl, rfl⟩ := h
        constructor <;> first | (simp [hpc]; done) | simp_all [hpc]
    · cases h
  case start ok =>
    split at h
    · rename_i hpc
      split at h
      · simp only [Option.some.injEq, Prod.mk.injEq] at h
        obtain ⟨rfl, rfl⟩ := h
        constructor <;> first | (simp [hpc]; done) | simp_all [hpc]
      · simp only [Option.some.injEq, Prod.mk.injEq] at h
        obtain ⟨rfl, rfl⟩ := h
        cases hw : j.won <;> constructor <;> simp [hpc, hw, Job.finish, State.closeStop]
    · cases h
  case procExit =>
    split at h
    · simp only [Option.some.injEq, Prod.mk.injEq] at h
      obtain ⟨rfl, rfl⟩ := h
      constructor <;> first | (simp; done) | simp_all
    · cases h
  case procWait err =>
    split at h
    · simp only [Option.some.injEq, Prod.mk.injEq] at h
      obtain ⟨rfl, rfl⟩ := h
      constructor <;> first | (simp; done) | simp_all
    · cases h
  case waitSeen =>
    split at h
    · split at h
      · rename_i hpc
        simp only [Option.some.injEq, Prod.mk.injEq] at h
        obtain ⟨rfl, rfl⟩ := h
        cases hw : j.won <;> constructor <;> simp [hpc, hw, Job.finish, State.closeStop]
      · rename_i hpc
        simp only [Option.some.injEq, Prod.mk.injEq] at h
        obtain ⟨rfl, rfl⟩ := h
        cases hw : j.won <;> constructor <;> simp [hpc, hw, Job.finish, State.closeStop]
      · cases h
    · cases h
  case terminateSeen ok =>
    split at h
    · rename_i hg
      simp only [Option.some.injEq, Prod.mk.injEq] at h
      obtain ⟨rfl, rfl⟩ := h
      constructor <;> first | (simp [hg.1]; done) | simp_all [hg.1]
    · cases h
  case killSeen =>
    split at h
    · rename_i hg
      simp only [Option.some.injEq, Prod.mk.injEq] at h
      obtain ⟨rfl, rfl⟩ := h
      cases hw : j.won <;> constructor <;> simp [hg.1, hw, Job.finish, State.closeStop]
    · cases h
  case ctxKill =>
    split at h
    · simp only [Option.some.injEq, Prod.mk.injEq] at h
      obtain ⟨rfl, rfl⟩ := h
      constructor <;> first | (simp; done) | simp_all
    · cases h


theorem JobFrame.shape {s s1 : State} {j j1 : Job} (hf : JobFrame s j s1 j1) :
    s1 = { s with
      ran := s.ran || (j1.won && !j.won)
      stop := s.stop +
        (if j.won = true ∧ j.pc ≠ JobPc.returned ∧ j1.pc = JobPc.returned then 1 else 0)
      status :=
        if (j.won = true ∧ j.pc ≠ JobPc.returned ∧ j1.pc = JobPc.returned) ∧ 0 < s.stop
        then Status.panicked else s.status } := by
  obtain ⟨h1, h2, h3, h4, h5, h6, h7, h7a, h7b, h8, -, -, -, -, h12, h13⟩ := hf
  cases s
  cases s1
  simp only [State.mk.injEq]
  simp only at h1 h2 h3 h4 h5 h6 h7 h7a h7b h8 h12 h13
  exact ⟨h13, h1, h2, h8, h3, h12, h4, h5, h6, h7, h7a, h7b⟩

/-! ## The invariant of the program -/

theorem parseFlags_code {args : List String} {h : Halt}
    (he : parseFlags args = Except.error h) : h.code = 2 := by
  unfold parseFlags at he
  split at he
  · cases he; rfl
  · split at he
    · cases he; rfl
    · cases he

theorem inv_init (cfg : Config) : ProgInv cfg State.init := by
  constructor <;> simp [State.init]

theorem inv_stepMain {cfg : Config} {s s1 : State} {m : MainAct} (hi : ProgInv cfg s)
    (hr : s.status = Status.running) (h : stepMain cfg s m = some s1) : ProgInv cfg s1 := by
  cases m <;> simp only [stepMain] at h
  case parseFlags =>
    split at h
    · rename_i hpc
      have he := hi.early (Or.inl hpc)
      split at h
      · rename_i hh hp
        simp only [Option.some.injEq] at h
        subst h
        exact { hi with
          not_panicked := by simp
          exit_code := by
            intro c hc
            simp only [Status.exited.injEq] at hc
            left
            exact ⟨by rw [← hc]; exact parseFlags_code hp, hpc, by simp [hp]⟩
          ended := by simp [hpc] }
      · rename_i u hp
        split at h
        · rename_i hs
          exfalso
          unfold parseFlags at hp
          unfold flagArgsFrom at hs
          split at hp
          · cases hp
          · rename_i hl
            split at hs
            · cases hs
            · omega
        · rename_i rest hs
          simp only [Option.some.injEq] at h
          subst h
          have hrest : rest = cfg.args.drop 3 := by
            unfold flagArgsFrom at hs
            split at hs
            · exact (Option.some.inj hs).symm
            · cases hs
          exact { hi with
            program := fun _ => ⟨by cases u; exact hp, rfl, hrest⟩
            accepted := by simp
            early := fun _ => he
            cron := by have := hi.cron; simp [hpc] at this ⊢; exact this
            term_wait := by simp
            woken := by simp
            kill_pos := by simp [he.2.2.2.2]
            kill_wait := by simp
            kill_select := by simp
            done_wait := by simp
            exit_code := by simp [hr]
            ended := by simp
            first_fired := by have h0 := hi.first_fired; simp_all
            fired_main := by have h0 := hi.fired_main; simp_all
            first_kill := by
              have h0 := hi.first_kill; have h1 := hi.first_fired; have h2 := hi.fired_main
              simp_all
            kill_first := by simp [he.2.2.2.2] }
    · cases h
  case addFunc =>
    split at h
    · rename_i hpc
      have he := hi.early (Or.inr (Or.inl hpc))
      split at h
      · rename_i hp
        simp only [Option.some.injEq] at h
        subst h
        exact { hi with
          program := by have h0 := hi.program; simp_all
          accepted := by have h0 := hi.accepted; simp_all
          early := by have h0 := hi.early; simp_all
          cron := by have h0 := hi.cron; simp_all
          term_wait := by have h0 := hi.term_wait; simp_all
          woken := by have h0 := hi.woken; simp_all
          kill_pos := by have h0 := hi.kill_pos; simp_all
          kill_wait := by have h0 := hi.kill_wait; simp_all
          kill_select := by have h0 := hi.kill_select; simp_all
          done_wait := by have h0 := hi.done_wait; simp_all
          exit_code := by have h0 := hi.exit_code; simp_all
          first_fired := by have h0 := hi.first_fired; have h1 := hi.fired_main; simp_all
          fired_main := by have h0 := hi.fired_main; simp_all
          first_kill := by
            have h0 := hi.first_kill; have h1 := hi.first_fired; have h2 := hi.fired_main
            have h3 := hi.kill_wait; simp_all
          kill_first := by have h0 := hi.kill_first; have h1 := hi.kill_pos; simp_all
          ended := by have h0 := hi.ended; simp_all }
      · rename_i hp
        simp only [Option.some.injEq] at h
        subst h
        exact { hi with
          not_panicked := by simp
          exit_code := by simp_all
          ended := by simp [hpc] }
    · cases h
  case cronStart =>
    split at h
    · rename_i hpc
      have he := hi.early (Or.inr (Or.inr hpc))
      simp only [Option.some.injEq] at h
      subst h
      exact { hi with
        program := by have h0 := hi.program; simp_all
        accepted := by have h0 := hi.accepted; simp_all
        early := by have h0 := hi.early; simp_all
        cron := by have h0 := hi.cron; simp_all
        term_wait := by have h0 := hi.term_wait; simp_all
        woken := by have h0 := hi.woken; simp_all
        kill_pos := by have h0 := hi.kill_pos; simp_all
        kill_wait := by have h0 := hi.kill_wait; simp_all
        kill_select := by have h0 := hi.kill_select; simp_all
        done_wait := by have h0 := hi.done_wait; simp_all
        exit_code := by have h0 := hi.exit_code; simp_all
        first_fired := by have h0 := hi.first_fired; have h1 := hi.fired_main; simp_all
        fired_main := by have h0 := hi.fired_main; simp_all
        first_kill := by
          have h0 := hi.first_kill; have h1 := hi.first_fired; have h2 := hi.fired_main
          have h3 := hi.kill_wait; simp_all
        kill_first := by have h0 := hi.kill_first; have h1 := hi.kill_pos; simp_all
        ended := by have h0 := hi.ended; simp_all }
    · cases h
  case osSignal =>
    split at h
    · rename_i hpc
      have ht := hi.term_wait hpc
      simp only [Option.some.injEq] at h
      subst h
      exact { hi with
        not_panicked := by simp [State.closeTerminate, ht, hr]
        jobs_ok := fun i j hj => jobOk_mono (hi.jobs_ok i j hj) id (Nat.le_succ _) (Nat.le_refl _)
        term_le := by simp [State.closeTerminate, ht]
        program := by have h0 := hi.program; simp_all [State.closeTerminate]
        accepted := by have h0 := hi.accepted; simp_all [State.closeTerminate]
        early := by have h0 := hi.early; simp_all [State.closeTerminate]
        cron := by have h0 := hi.cron; simp_all [State.closeTerminate]
        term_wait := by have h0 := hi.term_wait; simp_all [State.closeTerminate]
        woken := by have h0 := hi.woken; simp_all [State.closeTerminate]
        kill_pos := by have h0 := hi.kill_pos; simp_all [State.closeTerminate]
        kill_wait := by have h0 := hi.kill_wait; simp_all [State.closeTerminate]
        kill_select := by have h0 := hi.kill_select; simp_all [State.closeTerminate]
        done_wait := by have h0 := hi.done_wait; simp_all [State.closeTerminate]
        exit_code := by have h0 := hi.exit_code; simp_all [State.closeTerminate]
        first_fired := by have h0 := hi.first_fired; have h1 := hi.fired_main; simp_all [State.closeTerminate]
        fired_main := by have h0 := hi.fired_main; simp_all [State.closeTerminate]
        first_kill := by
          have h0 := hi.first_kill; have h1 := hi.first_fired; have h2 := hi.fired_main
          have h3 := hi.kill_wait; simp_all [State.closeTerminate]
        kill_first := by have h0 := hi.kill_first; have h1 := hi.kill_pos; simp_all [State.closeTerminate]
        ended := by have h0 := hi.ended; simp_all [State.closeTerminate] }
    · cases h
  case stopSeen =>
    split at h
    · rename_i hg
      obtain ⟨hpc, hst⟩ := hg
      simp only [Option.some.injEq] at h
      subst h
      exact { hi with
        program := by have h0 := hi.program; simp_all
        accepted := by have h0 := hi.accepted; simp_all
        early := by have h0 := hi.early; simp_all
        cron := by have h0 := hi.cron; simp_all
        term_wait := by have h0 := hi.term_wait; simp_all
        woken := by have h0 := hi.woken; simp_all
        kill_pos := by have h0 := hi.kill_pos; simp_all
        kill_wait := by have h0 := hi.kill_wait; simp_all
        kill_select := by have h0 := hi.kill_select; simp_all
        done_wait := by have h0 := hi.done_wait; simp_all
        exit_code := by have h0 := hi.exit_code; simp_all
        first_fired := by have h0 := hi.first_fired; have h1 := hi.fired_main; simp_all
        fired_main := by have h0 := hi.fired_main; simp_all
        first_kill := by
          have h0 := hi.first_kill; have h1 := hi.first_fired; have h2 := hi.fired_main
          have h3 := hi.kill_wait; simp_all
        kill_first := by have h0 := hi.kill_first; have h1 := hi.kill_pos; simp_all
        ended := by have h0 := hi.ended; simp_all }
    · cases h
  case cronStop =>
    split at h
    · rename_i hpc
      simp only [Option.some.injEq] at h
      subst h
      by_cases hk : 0 < cfg.killTimeout
      · simp only [hk, if_true]
        exact { hi with
          program := by have h0 := hi.program; simp_all
          accepted := by have h0 := hi.accepted; simp_all
          early := by have h0 := hi.early; simp_all
          cron := by have h0 := hi.cron; simp_all
          term_wait := by have h0 := hi.term_wait; simp_all
          woken := by have h0 := hi.woken; simp_all
          kill_pos := by have h0 := hi.kill_pos; simp_all
          kill_wait := by have h0 := hi.kill_wait; simp_all
          kill_select := by have h0 := hi.kill_select; simp_all
          done_wait := by have h0 := hi.done_wait; simp_all
          exit_code := by have h0 := hi.exit_code; simp_all
          first_fired := by have h0 := hi.first_fired; have h1 := hi.fired_main; simp_all
          fired_main := by have h0 := hi.fired_main; simp_all
          first_kill := by
            have h0 := hi.first_kill; have h1 := hi.first_fired; have h2 := hi.fired_main
            have h3 := hi.kill_wait; simp_all
          kill_first := by have h0 := hi.kill_first; have h1 := hi.kill_pos; simp_all
          ended := by have h0 := hi.ended; simp_all }
      · simp only [hk, if_false]
        exact { hi with
          program := by have h0 := hi.program; simp_all
          accepted := by have h0 := hi.accepted; simp_all
          early := by have h0 := hi.early; simp_all
          cron := by have h0 := hi.cron; simp_all
          term_wait := by have h0 := hi.term_wait; simp_all
          woken := by have h0 := hi.woken; simp_all
          kill_pos := by have h0 := hi.kill_pos; simp_all
          kill_wait := by have h0 := hi.kill_wait; simp_all
          kill_select := by have h0 := hi.kill_select; simp_all
          done_wait := by have h0 := hi.done_wait; simp_all
          exit_code := by have h0 := hi.exit_code; simp_all
          first_fired := by have h0 := hi.first_fired; have h1 := hi.fired_main; simp_all
          fired_main := by have h0 := hi.fired_main; simp_all
          first_kill := by
            have h0 := hi.first_kill; have h1 := hi.first_fired; have h2 := hi.fired_main
            have h3 := hi.kill_wait; simp_all
          kill_first := by have h0 := hi.kill_first; have h1 := hi.kill_pos; simp_all
          ended := by have h0 := hi.ended; simp_all }
    · cases h
  case cronDone =>
    split at h
    · rename_i hg
      obtain ⟨hpc, hall⟩ := hg
      simp only [Option.some.injEq] at h
      subst h
      rcases hpc with ⟨hpc, htf⟩ | hpc | hpc
      all_goals exact { hi with
        not_panicked := by simp
        ended := fun _ => ⟨rfl, hall⟩
        program := by have h0 := hi.program; simp_all
        accepted := by have h0 := hi.accepted; simp_all
        early := by have h0 := hi.early; simp_all
        cron := by have h0 := hi.cron; simp_all
        term_wait := by have h0 := hi.term_wait; simp_all
        woken := by have h0 := hi.woken; simp_all
        kill_pos := by have h0 := hi.kill_pos; simp_all
        kill_wait := by have h0 := hi.kill_wait; simp_all
        kill_select := by have h0 := hi.kill_select; simp_all
        done_wait := by have h0 := hi.done_wait; simp_all
        exit_code := by have h0 := hi.exit_code; simp_all
        first_fired := by have h0 := hi.first_fired; have h1 := hi.fired_main; simp_all
        fired_main := by have h0 := hi.fired_main; simp_all
        first_kill := by
          have h0 := hi.first_kill; have h1 := hi.first_fired; have h2 := hi.fired_main
          have h3 := hi.kill_wait; simp_all
        kill_first := by have h0 := hi.kill_first; have h1 := hi.kill_pos; simp_all }
    · cases h
  case killTimer =>
    split at h
    · rename_i hg
      obtain ⟨hpc, htf⟩ := hg
      have hk : s.kill = 0 := by
        have h0 := hi.kill_pos
        rcases Nat.eq_zero_or_pos s.kill with h1 | h1
        · exact h1
        · have h2 := (h0 h1).2
          simp [hpc] at h2
      have hks := hi.kill_select hpc
      simp only [Option.some.injEq] at h
      subst h
      exact { hi with
        not_panicked := by simp [State.closeKill, hk, hr]
        jobs_ok := fun i j hj => jobOk_mono (hi.jobs_ok i j hj) id (Nat.le_refl _) (Nat.le_succ _)
        kill_le := by simp [State.closeKill, hk]
        program := by have h0 := hi.program; simp_all [State.closeKill]
        accepted := by have h0 := hi.accepted; simp_all [State.closeKill]
        early := by have h0 := hi.early; simp_all [State.closeKill]
        cron := by have h0 := hi.cron; simp_all [State.closeKill]
        term_wait := by have h0 := hi.term_wait; simp_all [State.closeKill]
        woken := by have h0 := hi.woken; simp_all [State.closeKill]
        kill_pos := by have h0 := hi.kill_pos; simp_all [State.closeKill]
        kill_wait := by have h0 := hi.kill_wait; simp_all [State.closeKill]
        kill_select := by have h0 := hi.kill_select; simp_all [State.closeKill]
        done_wait := by have h0 := hi.done_wait; simp_all [State.closeKill]
        exit_code := by have h0 := hi.exit_code; simp_all [State.closeKill]
        first_fired := by have h0 := hi.first_fired; have h1 := hi.fired_main; simp_all [State.closeKill]
        fired_main := by have h0 := hi.fired_main; simp_all [State.closeKill]
        first_kill := by
          have h0 := hi.first_kill; have h1 := hi.first_fired; have h2 := hi.fired_main
          have h3 := hi.kill_wait; simp_all [State.closeKill]
        kill_first := by have h0 := hi.kill_first; have h1 := hi.kill_pos; simp_all [State.closeKill]
        ended := by have h0 := hi.ended; simp_all [State.closeKill] }
    · cases h


theorem getElem?_snoc_of_some {α : Type} {l : List α} {p : Nat} {a : α} (x : α)
    (h : l[p]? = some a) : (l ++ [x])[p]? = some a := by
  have hp : p < l.length := by
    by_contra hc
    rw [List.getElem?_eq_none (Nat.le_of_not_lt hc)] at h
    cases h
  rw [List.getElem?_append_left hp]
  exact h

theorem getElem?_set_of_some {α : Type} {l : List α} {i : Nat} {a : α} (x : α)
    (h : l[i]? = some a) : (l.set i x)[i]? = some x := by
  have hp : i < l.length := by
    by_contra hc
    rw [List.getElem?_eq_none (Nat.le_of_not_lt hc)] at h
    cases h
  exact List.getElem?_set_self hp

theorem getElem?_set_of_ne {α : Type} {l : List α} {i p : Nat} (x : α) (h : p ≠ i) :
    (l.set i x)[p]? = l[p]? :=
  List.getElem?_set_ne (fun e => h e.symm)

theorem inv_fire {cfg : Config} {s : State} (hi : ProgInv cfg s)
    (hc : s.cronRunning = true) : ProgInv cfg { s with jobs := s.jobs ++ [Job.fresh] } := by
  have hm := hi.cron.mp hc
  exact { hi with
    jobs_ok := by
      intro p a hp
      rcases getElem?_snoc_some _ _ _ _ hp with h1 | ⟨-, rfl⟩
      · exact hi.jobs_ok p a h1
      · exact jobOk_fresh _ _ _ _
    won_unique := by
      intro p q a b hp hq ha hb
      rcases getElem?_snoc_some _ _ _ _ hp with h1 | ⟨-, rfl⟩
      · rcases getElem?_snoc_some _ _ _ _ hq with h2 | ⟨-, rfl⟩
        · exact hi.won_unique p q a b h1 h2 ha hb
        · simp [Job.fresh] at hb
      · simp [Job.fresh] at ha
    ran_won := by
      intro hr
      obtain ⟨p, a, hp, ha⟩ := hi.ran_won hr
      exact ⟨p, a, getElem?_snoc_of_some _ hp, ha⟩
    stop_open := by
      intro p a hp ha hpc
      rcases getElem?_snoc_some _ _ _ _ hp with h1 | ⟨-, rfl⟩
      · exact hi.stop_open p a h1 ha hpc
      · simp [Job.fresh] at ha
    stop_closed := by
      intro hst
      obtain ⟨p, a, hp, ha⟩ := hi.stop_closed hst
      exact ⟨p, a, getElem?_snoc_of_some _ hp, ha⟩
    stop_done := by
      intro p a hp ha hpc
      rcases getElem?_snoc_some _ _ _ _ hp with h1 | ⟨-, rfl⟩
      · exact hi.stop_done p a h1 ha hpc
      · simp [Job.fresh] at ha
    early := by
      intro he
      rcases hm with h1 | h1 <;> simp [h1] at he
    ended := by
      intro he
      rcases hm with h1 | h1 <;> simp [h1] at he }

theorem inv_setJob {cfg : Config} {s : State} {i : Nat} {j j1 : Job} {ran1 : Bool}
    {stop1 : Nat} (hi : ProgInv cfg s) (hr : s.status = Status.running)
    (hji : s.jobs[i]? = some j)
    (hj1 : JobOk cfg ran1 s.terminate s.kill j1)
    (hran : ran1 = (s.ran || (j1.won && !j.won)))
    (hkeep : j.won = true → j1.won = true)
    (hnew : j1.won = true → j.won = false → s.ran = false)
    (hnewpc : j1.won = true → j.won = false → j1.pc = JobPc.starting)
    (hret : j.pc = JobPc.returned → j1.pc = JobPc.returned)
    (hstop : stop1 = s.stop +
      (if j.won = true ∧ j.pc ≠ JobPc.returned ∧ j1.pc = JobPc.returned then 1 else 0)) :
    ProgInv cfg { s with ran := ran1, stop := stop1, jobs := s.jobs.set i j1 } := by
  have hmono : s.ran = true → ran1 = true := fun h => by simp [hran, h]
  have hsame : ∀ (p : Nat) (a : Job), s.jobs[p]? = some a → p = i → a = j := by
    intro p a hp he
    subst he
    rw [hji] at hp
    exact (Option.some.inj hp).symm
  have hwon_old : ∀ (q : Nat) (b : Job), q ≠ i → s.jobs[q]? = some b → b.won = true →
      j1.won = true → False := by
    intro q b hq hb hbw hw
    cases hjw : j.won
    · have h1 := hnew hw hjw
      have h2 := ((hi.jobs_ok q b hb).won_once hbw).2
      rw [h1] at h2
      cases h2
    · exact hq (hi.won_unique q i b j hb hji hbw hjw)
  have hstop0 : s.ran = false → s.stop = 0 := by
    intro h0
    rcases Nat.eq_zero_or_pos s.stop with h1 | h1
    · exact h1
    · obtain ⟨p, a, hp, ha, -⟩ := hi.stop_closed h1
      have h2 := ((hi.jobs_ok p a hp).won_once ha).2
      rw [h0] at h2
      cases h2
  exact { hi with
    jobs_ok := by
      intro p a hp
      rcases getElem?_set_some _ _ _ _ _ hp with ⟨-, rfl, -⟩ | ⟨-, h1⟩
      · exact hj1
      · exact jobOk_mono (hi.jobs_ok p a h1) hmono (Nat.le_refl _) (Nat.le_refl _)
    won_unique := by
      intro p q a b hp hq ha hb
      rcases getElem?_set_some _ _ _ _ _ hp with ⟨rfl, rfl, -⟩ | ⟨hpn, h1⟩
      · rcases getElem?_set_some _ _ _ _ _ hq with ⟨rfl, -, -⟩ | ⟨hqn, h2⟩
        · rfl
        · exact (hwon_old q b hqn h2 hb ha).elim
      · rcases getElem?_set_some _ _ _ _ _ hq with ⟨rfl, rfl, -⟩ | ⟨hqn, h2⟩
        · exact (hwon_old p a hpn h1 ha hb).elim
        · exact hi.won_unique p q a b h1 h2 ha hb
    ran_won := by
      intro h
      rw [hran] at h
      simp only [Bool.or_eq_true, Bool.and_eq_true, Bool.not_eq_true'] at h
      rcases h with h | h
      · obtain ⟨p, a, hp, ha⟩ := hi.ran_won h
        by_cases hpi : p = i
        · have := hsame p a hp hpi
          subst this
          exact ⟨i, j1, getElem?_set_of_some _ hji, hkeep ha⟩
        · exact ⟨p, a, by rw [getElem?_set_of_ne _ hpi]; exact hp, ha⟩
      · exact ⟨i, j1, getElem?_set_of_some _ hji, h.1⟩
    stop_open := by
      intro p a hp ha hpc
      show stop1 = 0
      rw [hstop]
      rcases getElem?_set_some _ _ _ _ _ hp with ⟨-, rfl, -⟩ | ⟨hpn, h1⟩
      · have hC : ¬ (j.won = true ∧ j.pc ≠ JobPc.returned ∧ a.pc = JobPc.returned) :=
          fun h => hpc h.2.2
        rw [if_neg hC, Nat.add_zero]
        cases hjw : j.won
        · exact hstop0 (hnew ha hjw)
        · exact hi.stop_open i j hji hjw (fun h => hpc (hret h))
      · have hC : ¬ (j.won = true ∧ j.pc ≠ JobPc.returned ∧ j1.pc = JobPc.returned) :=
          fun h => hpn (hi.won_unique p i a j h1 hji ha h.1)
        rw [if_neg hC, Nat.add_zero]
        exact hi.stop_open p a h1 ha hpc
    stop_done := by
      intro p a hp ha hpc
      show stop1 = 1
      rw [hstop]
      rcases getElem?_set_some _ _ _ _ _ hp with ⟨-, rfl, -⟩ | ⟨hpn, h1⟩
      · by_cases hC : j.won = true ∧ j.pc ≠ JobPc.returned ∧ a.pc = JobPc.returned
        · rw [if_pos hC, hi.stop_open i j hji hC.1 hC.2.1]
        · rw [if_neg hC, Nat.add_zero]
          cases hjw : j.won
          · have h2 := hnewpc ha hjw
            rw [hpc] at h2
            cases h2
          · by_cases hjr : j.pc = JobPc.returned
            · exact hi.stop_done i j hji hjw hjr
            · exact (hC ⟨hjw, hjr, hpc⟩).elim
      · have hC : ¬ (j.won = true ∧ j.pc ≠ JobPc.returned ∧ j1.pc = JobPc.returned) :=
          fun h => hpn (hi.won_unique p i a j h1 hji ha h.1)
        rw [if_neg hC, Nat.add_zero]
        exact hi.stop_done p a h1 ha hpc
    stop_le := by
      show stop1 ≤ 1
      rw [hstop]
      by_cases hC : j.won = true ∧ j.pc ≠ JobPc.returned ∧ j1.pc = JobPc.returned
      · rw [if_pos hC, hi.stop_open i j hji hC.1 hC.2.1]
      · rw [if_neg hC]
        exact hi.stop_le
    stop_closed := by
      intro h
      by_cases hC : j.won = true ∧ j.pc ≠ JobPc.returned ∧ j1.pc = JobPc.returned
      · exact ⟨i, j1, getElem?_set_of_some _ hji, hkeep hC.1, hC.2.2⟩
      · have h0 : 0 < s.stop := by
          have h1 : 0 < stop1 := h
          rw [hstop, if_neg hC] at h1
          exact h1
        obtain ⟨p, a, hp, ha, hpc⟩ := hi.stop_closed h0
        by_cases hpi : p = i
        · have := hsame p a hp hpi
          subst this
          exact ⟨i, j1, getElem?_set_of_some _ hji, hkeep ha, hret hpc⟩
        · exact ⟨p, a, by rw [getElem?_set_of_ne _ hpi]; exact hp, ha, hpc⟩
    early := by
      intro he
      have h0 := (hi.early he).1
      rw [h0] at hji
      simp at hji
    woken := by
      intro hm
      rcases hi.woken hm with h | h
      · exact Or.inl h
      · right
        show 0 < stop1
        rw [hstop]
        exact Nat.lt_of_lt_of_le h (Nat.le_add_right _ _)
    ended := by
      intro hm
      have h0 := (hi.ended hm).1
      rw [hr] at h0
      cases h0 }

theorem inv_stepJob {cfg : Config} {s s1 : State} {i : Nat} {j j1 : Job} {b : JobAct}
    (hi : ProgInv cfg s) (hr : s.status = Status.running) (hji : s.jobs[i]? = some j)
    (h : stepJob cfg s j b = some (s1, j1)) :
    ProgInv cfg (s1.setJob i j1) ∧ s1.status = Status.running := by
  have hjo := hi.jobs_ok i j hji
  have hmain : s.main ≠ MainPc.parse := by
    intro hm
    have h0 := (hi.early (Or.inl hm)).1
    rw [h0] at hji
    simp at hji
  have hprog := hi.program hmain
  have hj1 := stepJob_jobOk hjo hprog.2.1 hprog.2.2 h
  have hf := stepJob_frame (fun hpc => by rw [hjo.at_entry hpc]; rfl) h
  have hst : s1.status = s.status := by
    rw [hf.status_eq]
    by_cases hC : j.won = true ∧ j.pc ≠ JobPc.returned ∧ j1.pc = JobPc.returned
    · have h0 := hi.stop_open i j hji hC.1 hC.2.1
      simp [h0]
    · simp [hC]
  have hshape : s1.setJob i j1 =
      { s with ran := s1.ran, stop := s1.stop, jobs := s.jobs.set i j1 } := by
    have e1 := hf.main_eq
    have e2 := hf.cron_eq
    have e3 := hf.term_eq
    have e4 := hf.kill_eq
    have e5 := hf.name_eq
    have e6 := hf.args_eq
    have e7 := hf.jobs_eq
    have e8 := hf.fired_eq
    have e9 := hf.first_eq
    cases s
    cases s1
    simp only [State.setJob, State.mk.injEq]
    simp only at e1 e2 e3 e4 e5 e6 e7 e8 e9 hst
    exact ⟨hst, e1, e2, trivial, e3, trivial, e4, e5, e6, by rw [e7], e8, e9⟩
  rw [hshape]
  rw [hf.term_eq, hf.kill_eq] at hj1
  exact ⟨inv_setJob hi hr hji hj1 hf.ran_eq hf.won_keep hf.won_new hf.won_new_pc hf.pc_ret hf.stop_eq,
    by rw [hst, hr]⟩


theorem inv_timerExpire {cfg : Config} {s : State} (hi : ProgInv cfg s)
    (hm : s.main = MainPc.killSelect) (_hf : s.timerFired = false) :
    ProgInv cfg { s with timerFired := true, timerFirst := !s.allReturned } :=
  { hi with
    first_fired := fun _ => rfl
    fired_main := fun _ => Or.inl hm
    first_kill := fun _ => ⟨hi.kill_select hm, Or.inl hm⟩
    kill_first := by
      intro hk
      have h2 := (hi.kill_pos hk).2
      rw [hm] at h2
      rcases h2 with h2 | h2 <;> cases h2 }

/-! ## Executions -/

/-- The three ways in which `step` can succeed. -/
theorem step_cases {cfg : Config} {s s1 : State} {a : Action}
    (h : step cfg s a = some s1) :
    s.status = Status.running ∧
    ((∃ m, a = Action.main m ∧ stepMain cfg s m = some s1) ∨
     (a = Action.fire ∧ s.cronRunning = true ∧ s1 = { s with jobs := s.jobs ++ [Job.fresh] }) ∨
     (∃ i b j s2 j1, a = Action.job i b ∧ s.jobs[i]? = some j ∧
        stepJob cfg s j b = some (s2, j1) ∧ s1 = s2.setJob i j1) ∨
     (a = Action.timerExpire ∧ s.main = MainPc.killSelect ∧ s.timerFired = false ∧
        s1 = { s with timerFired := true, timerFirst := !s.allReturned })) := by
  unfold step at h
  split at h
  · rename_i hr
    refine ⟨hr, ?_⟩
    cases a with
    | main m => exact Or.inl ⟨m, rfl, h⟩
    | fire =>
      right; left
      simp only [State.fire] at h
      split at h
      · rename_i hc
        exact ⟨rfl, hc, (Option.some.inj h).symm⟩
      · cases h
    | timerExpire =>
      right; right; right
      simp only [State.timerExpire] at h
      split at h
      · rename_i hg
        exact ⟨rfl, hg.1, hg.2, (Option.some.inj h).symm⟩
      · cases h
    | job i b =>
      right; right; left
      simp only at h
      split at h
      · cases h
      · rename_i j hj
        split at h
        · cases h
        · rename_i s2 j1 hs
          exact ⟨i, b, j, s2, j1, rfl, hj, hs, (Option.some.inj h).symm⟩
  · cases h

theorem step_job_eq {cfg : Config} {s : State} {i : Nat} {j : Job} {b : JobAct}
    (hr : s.status = Status.running) (hj : s.jobs[i]? = some j) :
    step cfg s (Action.job i b) =
      (stepJob cfg s j b).map (fun r => r.1.setJob i r.2) := by
  unfold step
  rw [if_pos hr]
  simp only [hj]
  cases stepJob cfg s j b <;> rfl

theorem step_halted {cfg : Config} {s : State} (a : Action)
    (h : s.status ≠ Status.running) : step cfg s a = none := by
  unfold step
  rw [if_neg h]

theorem inv_step {cfg : Config} {s s1 : State} {a : Action} (hi : ProgInv cfg s)
    (h : step cfg s a = some s1) : ProgInv cfg s1 := by
  obtain ⟨hr, hc⟩ := step_cases h
  rcases hc with ⟨m, -, hm⟩ | ⟨-, hc, rfl⟩ | ⟨i, b, j, s2, j1, -, hj, hs, rfl⟩ |
    ⟨-, hm, hf, rfl⟩
  · exact inv_stepMain hi hr hm
  · exact inv_fire hi hc
  · exact (inv_stepJob hi hr hj hs).1
  · exact inv_timerExpire hi hm hf

theorem inv_runFrom {cfg : Config} (as : List Action) :
    ∀ {s s1 : State}, ProgInv cfg s → runFrom cfg s as = some s1 → ProgInv cfg s1 := by
  induction as with
  | nil =>
    intro s s1 hi h
    simp only [runFrom, Option.some.injEq] at h
    exact h ▸ hi
  | cons a as ih =>
    intro s s1 hi h
    simp only [runFrom] at h
    split at h
    · cases h
    · rename_i s2 hs
      exact ih (inv_step hi hs) h

theorem inv_run {cfg : Config} {as : List Action} {s : State}
    (h : run cfg as = some s) : ProgInv cfg s :=
  inv_runFrom as (inv_init cfg) h

theorem runFrom_halted {cfg : Config} {s s1 : State} {as : List Action}
    (hs : s.status ≠ Status.running) (h : runFrom cfg s as = some s1) :
    as = [] ∧ s1 = s := by
  cases as with
  | nil =>
    simp only [runFrom, Option.some.injEq] at h
    exact ⟨rfl, h.symm⟩
  | cons a as =>
    simp only [runFrom, step_halted a hs] at h
    cases h

/-! ## Counting over the invocations -/

theorem countP_le_one {α : Type} (p : α → Bool) :
    ∀ (l : List α),
      (∀ (i k : Nat) (a b : α), l[i]? = some a → l[k]? = some b → p a = true →
        p b = true → i = k) → l.countP p ≤ 1 := by
  intro l
  induction l with
  | nil => intro _; simp
  | cons x xs ih =>
    intro hu
    have hxs : ∀ (i k : Nat) (a b : α), xs[i]? = some a → xs[k]? = some b → p a = true →
        p b = true → i = k := by
      intro i k a b hi hk ha hb
      have := hu (i + 1) (k + 1) a b (by simpa using hi) (by simpa using hk) ha hb
      omega
    cases hx : p x
    · rw [List.countP_cons_of_neg _ _ (by simp [hx])]
      exact ih hxs
    · rw [List.countP_cons_of_pos _ _ hx]
      have hz : xs.countP p = 0 := by
        rw [List.countP_eq_zero]
        intro b hb hpb
        obtain ⟨k, hk⟩ := List.getElem?_of_mem hb
        have := hu 0 (k + 1) x b (by simp) (by simpa using hk) hx hpb
        omega
      omega

theorem countP_pos_of_getElem? {α : Type} (p : α → Bool) {l : List α} {i : Nat} {a : α}
    (h : l[i]? = some a) (ha : p a = true) : 0 < l.countP p := by
  rw [List.countP_pos_iff]
  exact ⟨a, List.getElem?_mem h, ha⟩

theorem sum_map_le_countP {α : Type} (f : α → Nat) (p : α → Bool) :
    ∀ (l : List α), (∀ a ∈ l, f a ≤ if p a = true then 1 else 0) →
      (l.map f).sum ≤ l.countP p := by
  intro l
  induction l with
  | nil => intro _; simp
  | cons x xs ih =>
    intro h
    have hx := h x (List.mem_cons_self _ _)
    have hxs := ih (fun a ha => h a (List.mem_cons_of_mem _ ha))
    simp only [List.map_cons, List.sum_cons, List.countP_cons]
    omega

theorem sum_map_eq_countP {α : Type} (f : α → Nat) (p : α → Bool) :
    ∀ (l : List α), (∀ a ∈ l, f a = if p a = true then 1 else 0) →
      (l.map f).sum = l.countP p := by
  intro l
  induction l with
  | nil => intro _; simp
  | cons x xs ih =>
    intro h
    have hx := h x (List.mem_cons_self _ _)
    have hxs := ih (fun a ha => h a (List.mem_cons_of_mem _ ha))
    simp only [List.map_cons, List.sum_cons, List.countP_cons]
    omega

theorem countP_le_sum_map {α : Type} (f : α → Nat) (p : α → Bool) :
    ∀ (l : List α), (∀ a ∈ l, (if p a = true then 1 else 0) ≤ f a) →
      l.countP p ≤ (l.map f).sum := by
  intro l
  induction l with
  | nil => intro _; simp
  | cons x xs ih =>
    intro h
    have hx := h x (List.mem_cons_self _ _)
    have hxs := ih (fun a ha => h a (List.mem_cons_of_mem _ ha))
    simp only [List.map_cons, List.sum_cons, List.countP_cons]
    omega

theorem le_sum_map {α : Type} (f : α → Nat) :
    ∀ (l : List α) (i : Nat) (a : α), l[i]? = some a → f a ≤ (l.map f).sum := by
  intro l
  induction l with
  | nil => intro i a h; simp at h
  | cons x xs ih =>
    intro i a h
    simp only [List.map_cons, List.sum_cons]
    cases i with
    | zero =>
      simp only [List.getElem?_cons_zero, Option.some.injEq] at h
      subst h
      omega
    | succ n =>
      have := ih n a (by simpa using h)
      omega

theorem all_returned_iff (s : State) :
    s.allReturned = true ↔
      ∀ (i : Nat) (j : Job), s.jobs[i]? = some j → j.pc = JobPc.returned := by
  unfold State.allReturned
  rw [List.all_eq_true]
  constructor
  · intro h i j hj
    have := h j (List.getElem?_mem hj)
    simpa using this
  · intro h j hj
    obtain ⟨i, hi⟩ := List.getElem?_of_mem hj
    simpa using h i j hi

/-- While an invocation has not returned, the program is running. -/
theorem running_of_unreturned {cfg : Config} {s : State} {i : Nat} {j : Job}
    (hi : ProgInv cfg s) (hj : s.jobs[i]? = some j) (hpc : j.pc ≠ JobPc.returned) :
    s.status = Status.running := by
  cases hst : s.status with
  | running => rfl
  | panicked => exact (hi.not_panicked hst).elim
  | exited c =>
    exfalso
    rcases hi.exit_code c hst with ⟨-, hm, -⟩ | ⟨-, hm, -⟩ | ⟨-, hm⟩
    · have h0 := (hi.early (Or.inl hm)).1
      rw [h0] at hj
      simp at hj
    · have h0 := (hi.early (Or.inr (Or.inl hm))).1
      rw [h0] at hj
      simp at hj
    · exact hpc ((all_returned_iff s).mp (hi.ended hm).2 i j hj)

/-! ## Effects of single steps -/

theorem stepMain_effect {cfg : Config} {s s1 : State} {m : MainAct}
    (h : stepMain cfg s m = some s1) :
    s1.terminate = s.terminate + (if m = MainAct.osSignal then 1 else 0) ∧
    s1.stop = s.stop ∧
    s1.kill = s.kill + (if m = MainAct.killTimer then 1 else 0) ∧
    s1.jobs = s.jobs ∧ s1.ran = s.ran := by
  cases m <;> simp only [stepMain] at h
  case parseFlags =>
    split at h
    · split at h
      · cases h; simp
      · split at h
        · cases h; simp
        · cases h; simp
    · cases h
  case addFunc =>
    split at h
    · split at h <;> (cases h; simp)
    · cases h
  case cronStart =>
    split at h
    · cases h; simp
    · cases h
  case osSignal =>
    split at h
    · cases h; simp [State.closeTerminate]
    · cases h
  case stopSeen =>
    split at h
    · cases h; simp
    · cases h
  case cronStop =>
    split at h
    · cases h; simp
    · cases h
  case cronDone =>
    split at h
    · cases h; simp
    · cases h
  case killTimer =>
    split at h
    · cases h; simp [State.closeKill]
    · cases h

/-- How one step changes the close counts of the three channels. -/
theorem step_counts {cfg : Config} {s s1 : State} {a : Action} (hi : ProgInv cfg s)
    (h : step cfg s a = some s1) :
    s1.terminate = s.terminate + (if a = Action.main MainAct.osSignal then 1 else 0) ∧
    s.stop ≤ s1.stop ∧
    s1.kill = s.kill + (if a = Action.main MainAct.killTimer then 1 else 0) := by
  obtain ⟨hr, hc⟩ := step_cases h
  rcases hc with ⟨m, rfl, hm⟩ | ⟨rfl, -, rfl⟩ | ⟨i, b, j, s2, j1, rfl, hj, hs, rfl⟩ |
    ⟨rfl, -, -, rfl⟩
  rotate_right
  · simp
  · obtain ⟨h1, h2, h3, -, -⟩ := stepMain_effect hm
    refine ⟨?_, by omega, ?_⟩
    · rw [h1]; simp
    · rw [h3]; simp
  · simp
  · have hf := stepJob_frame
      (fun hpc => by rw [(hi.jobs_ok i j hj).at_entry hpc]; rfl) hs
    refine ⟨?_, ?_, ?_⟩
    · simp [State.setJob, hf.term_eq]
    · simp only [State.setJob]
      rw [hf.stop_eq]
      exact Nat.le_add_right _ _
    · simp [State.setJob, hf.kill_eq]

theorem runFrom_counts {cfg : Config} (as : List Action) :
    ∀ {s s1 : State}, ProgInv cfg s → runFrom cfg s as = some s1 →
      s.terminate ≤ s1.terminate ∧ s.stop ≤ s1.stop ∧
      s1.kill = s.kill + as.count (Action.main MainAct.killTimer) := by
  induction as with
  | nil =>
    intro s s1 _ h
    simp only [runFrom, Option.some.injEq] at h
    subst h
    simp
  | cons a as ih =>
    intro s s1 hi h
    simp only [runFrom] at h
    split at h
    · cases h
    · rename_i s2 hs
      obtain ⟨h1, h2, h3⟩ := step_counts hi hs
      obtain ⟨h4, h5, h6⟩ := ih (inv_step hi hs) h
      refine ⟨by omega, by omega, ?_⟩
      rw [h6, h3, List.count_cons]
      by_cases ha : a = Action.main MainAct.killTimer
      · simp [ha]; omega
      · have ha2 : ¬ (Action.main MainAct.killTimer = a) := fun e => ha e.symm
        simp [ha, ha2]

/-- Once `main` has received the completion signal nothing else happens:
`cronDone` can only be the last action of an execution. -/
theorem cronDone_last {cfg : Config} (as : List Action) :
    ∀ {s s1 : State} (pre post : List Action) (a : Action),
      runFrom cfg s as = some s1 → as = pre ++ a :: post →
      Action.main MainAct.cronDone ∉ pre := by
  induction as with
  | nil =>
    intro s s1 pre post a _ he
    cases pre <;> simp at he
  | cons b bs ih =>
    intro s s1 pre post a h he
    cases pre with
    | nil => simp
    | cons c pre1 =>
      simp only [List.cons_append, List.cons.injEq] at he
      obtain ⟨rfl, he2⟩ := he
      simp only [runFrom] at h
      split at h
      · cases h
      · rename_i s2 hs
        intro hmem
        simp only [List.mem_cons] at hmem
        rcases hmem with hm | hm
        · subst hm
          have hst : s2.status ≠ Status.running := by
            obtain ⟨-, hc⟩ := step_cases hs
            rcases hc with ⟨m, hm1, hm2⟩ | ⟨hm1, -⟩ | ⟨i, b2, j, s3, j1, hm1, -⟩ |
              ⟨hm1, -⟩
            · cases hm1
              simp only [stepMain] at hm2
              split at hm2
              · cases hm2
                simp
              · cases hm2
            · cases hm1
            · cases hm1
            · cases hm1
          have := (runFrom_halted hst h).1
          rw [he2] at this
          cases pre1 <;> simp at this
        · exact ih pre1 post a h he2 hm

/-- Where `main` goes on each of its actions. -/
theorem stepMain_pc {cfg : Config} {s s1 : State} {m : MainAct}
    (h : stepMain cfg s m = some s1) :
    (m = MainAct.parseFlags ∧ s.main = MainPc.parse ∧ s1.main ≠ MainPc.ended) ∨
    (m = MainAct.addFunc ∧ s.main = MainPc.addFunc ∧ s1.main ≠ MainPc.ended) ∨
    (m = MainAct.cronStart ∧ s.main = MainPc.cronStart ∧ s1.main = MainPc.waitSignal) ∨
    (m = MainAct.osSignal ∧ s.main = MainPc.waitSignal ∧ s1.main = MainPc.stopCron) ∨
    (m = MainAct.stopSeen ∧ s.main = MainPc.waitSignal ∧ 0 < s.stop ∧
      s1.main = MainPc.stopCron) ∨
    (m = MainAct.cronStop ∧ s.main = MainPc.stopCron ∧
      (s1.main = MainPc.killSelect ∨ s1.main = MainPc.doneWait)) ∨
    (m = MainAct.cronDone ∧
      (s.main = MainPc.killSelect ∨ s.main = MainPc.killWait ∨ s.main = MainPc.doneWait) ∧
      s.allReturned = true ∧ s1.main = MainPc.ended) ∨
    (m = MainAct.killTimer ∧ s.main = MainPc.killSelect ∧ s1.main = MainPc.killWait) := by
  cases m <;> simp only [stepMain] at h
  case parseFlags =>
    split at h
    · rename_i hpc
      left
      split at h
      · cases h; simp [hpc]
      · split at h
        · cases h; simp [hpc]
        · cases h; simp [hpc]
    · cases h
  case addFunc =>
    split at h
    · rename_i hpc
      right; left
      split at h <;> (cases h; simp [hpc])
    · cases h
  case cronStart =>
    split at h
    · rename_i hpc
      cases h; simp [hpc]
    · cases h
  case osSignal =>
    split at h
    · rename_i hpc
      cases h; simp [hpc]
    · cases h
  case stopSeen =>
    split at h
    · rename_i hpc
      cases h; simp [hpc.1, hpc.2]
    · cases h
  case cronStop =>
    split at h
    · rename_i hpc
      cases h
      by_cases hk : 0 < cfg.killTimeout <;> simp [hpc, hk]
    · cases h
  case cronDone =>
    split at h
    · rename_i hpc
      cases h
      have h1 : s.main = MainPc.killSelect ∨ s.main = MainPc.killWait ∨
          s.main = MainPc.doneWait := by
        rcases hpc.1 with h2 | h2 | h2
        · exact Or.inl h2.1
        · exact Or.inr (Or.inl h2)
        · exact Or.inr (Or.inr h2)
      simp [h1, hpc.2]
    · cases h
  case killTimer =>
    split at h
    · rename_i hpc
      cases h; simp [hpc.1]
    · cases h

/-- A successful step of an invocation, seen from a state that satisfies the
invariant. -/
theorem step_job_cases {cfg : Config} {s s1 : State} {i : Nat} {b : JobAct}
    (hi : ProgInv cfg s) (h : step cfg s (Action.job i b) = some s1) :
    ∃ j s2 j1, s.jobs[i]? = some j ∧ stepJob cfg s j b = some (s2, j1) ∧
      s1 = s2.setJob i j1 ∧ s1.jobs[i]? = some j1 ∧ JobFrame s j s2 j1 ∧
      s.status = Status.running ∧ s1.status = Status.running ∧
      JobOk cfg s.ran s.terminate s.kill j ∧ JobOk cfg s1.ran s1.terminate s1.kill j1 := by
  obtain ⟨hr, hc⟩ := step_cases h
  rcases hc with ⟨m, hm, -⟩ | ⟨hm, -⟩ | ⟨i1, b1, j, s2, j1, he, hj, hs, rfl⟩ | ⟨hm, -⟩
  rotate_right
  · cases hm
  · cases hm
  · cases hm
  · cases he
    have hjo := hi.jobs_ok i j hj
    have hf := stepJob_frame (fun hpc => by rw [hjo.at_entry hpc]; rfl) hs
    have hset : (s2.setJob i j1).jobs[i]? = some j1 := by
      simp only [State.setJob]
      rw [hf.jobs_eq]
      exact getElem?_set_of_some _ hj
    have hinv := inv_stepJob hi hr hj hs
    exact ⟨j, s2, j1, hj, hs, rfl, hset, hf, hr, hinv.2, hjo, hinv.1.jobs_ok i j1 hset⟩

/-- What one action can do to an invocation that is at the outer select. -/
theorem stepJob_running {cfg : Config} {s s1 : State} {j j1 : Job} {b : JobAct}
    (hpc : j.pc = JobPc.running) (h : stepJob cfg s j b = some (s1, j1)) :
    (j1.pc = JobPc.running ∧ j1.interrupts = j.interrupts ∧ j1.outcome = j.outcome) ∨
    (b = JobAct.waitSeen ∧ j.waitClosed = true ∧ j1.pc = JobPc.returned ∧
      j1.outcome = some Outcome.completed ∧ j1.interrupts = j.interrupts) ∨
    (∃ ok, b = JobAct.terminateSeen ok ∧ 0 < s.terminate ∧ j1.pc = JobPc.interrupting ∧
      j1.interrupts = j.interrupts + 1) := by
  cases b <;> simp only [stepJob, finishJob, hpc] at h
  case guard => simp at h
  case start ok => simp at h
  case procExit =>
    split at h
    · simp only [Option.some.injEq, Prod.mk.injEq] at h
      obtain ⟨-, rfl⟩ := h
      simp [hpc]
    · cases h
  case procWait err =>
    split at h
    · simp only [Option.some.injEq, Prod.mk.injEq] at h
      obtain ⟨-, rfl⟩ := h
      simp [hpc]
    · cases h
  case waitSeen =>
    split at h
    · rename_i hw
      simp only [Option.some.injEq, Prod.mk.injEq] at h
      obtain ⟨-, rfl⟩ := h
      simp [hw, Job.finish]
    · cases h
  case terminateSeen ok =>
    split at h
    · rename_i hg
      simp only [Option.some.injEq, Prod.mk.injEq] at h
      obtain ⟨-, rfl⟩ := h
      simp [hg.2]
    · cases h
  case killSeen => simp at h
  case ctxKill =>
    split at h
    · simp only [Option.some.injEq, Prod.mk.injEq] at h
      obtain ⟨-, rfl⟩ := h
      simp [hpc]
    · cases h

/-- The only action that calls `Signal(os.Interrupt)` is the terminate case
of the outer select. -/
theorem stepJob_interrupts {cfg : Config} {s s1 : State} {j j1 : Job} {b : JobAct}
    (h : stepJob cfg s j b = some (s1, j1)) :
    j1.interrupts = j.interrupts ∨
    (∃ ok, b = JobAct.terminateSeen ok ∧ j.pc = JobPc.running ∧ 0 < s.terminate ∧
      j1.pc = JobPc.interrupting ∧ j1.interrupts = j.interrupts + 1) := by
  cases b <;> simp only [stepJob, finishJob] at h
  case guard =>
    split at h
    · split at h
      · split at h <;>
          (simp only [Option.some.injEq, Prod.mk.injEq] at h; obtain ⟨-, rfl⟩ := h; simp)
      · simp only [Option.some.injEq, Prod.mk.injEq] at h; obtain ⟨-, rfl⟩ := h; simp
    · cases h
  case start ok =>
    split at h
    · split at h <;>
        (simp only [Option.some.injEq, Prod.mk.injEq] at h; obtain ⟨-, rfl⟩ := h
         simp [Job.finish])
    · cases h
  case procExit =>
    split at h
    · simp only [Option.some.injEq, Prod.mk.injEq] at h; obtain ⟨-, rfl⟩ := h; simp
    · cases h
  case procWait err =>
    split at h
    · simp only [Option.some.injEq, Prod.mk.injEq] at h; obtain ⟨-, rfl⟩ := h; simp
    · cases h
  case waitSeen =>
    split at h
    · split at h
      · simp only [Option.some.injEq, Prod.mk.injEq] at h; obtain ⟨-, rfl⟩ := h
        simp [Job.finish]
      · simp only [Option.some.injEq, Prod.mk.injEq] at h; obtain ⟨-, rfl⟩ := h
        simp [Job.finish]
      · cases h
    · cases h
  case terminateSeen ok =>
    split at h
    · rename_i hg
      simp only [Option.some.injEq, Prod.mk.injEq] at h; obtain ⟨-, rfl⟩ := h
      simp [hg.1, hg.2]
    · cases h
  case killSeen =>
    split at h
    · simp only [Option.some.injEq, Prod.mk.injEq] at h; obtain ⟨-, rfl⟩ := h
      simp [Job.finish]
    · cases h
  case ctxKill =>
    split at h
    · simp only [Option.some.injEq, Prod.mk.injEq] at h; obtain ⟨-, rfl⟩ := h; simp
    · cases h

/-- The only action that calls `Process.Kill()` is the context watcher, on a
cancelled context and a command whose `Wait` has not returned. -/
theorem stepJob_sigkills {cfg : Config} {s s1 : State} {j j1 : Job} {b : JobAct}
    (h : stepJob cfg s j b = some (s1, j1)) :
    j1.sigkills = j.sigkills ∨
    (b = JobAct.ctxKill ∧ j.spawned = true ∧ j.ctxCancelled = true ∧
      j.waitClosed = false ∧ j1.sigkills = j.sigkills + 1 ∧ j1.pc = j.pc) := by
  cases b <;> simp only [stepJob, finishJob] at h
  case guard =>
    split at h
    · split at h
      · split at h <;>
          (simp only [Option.some.injEq, Prod.mk.injEq] at h; obtain ⟨-, rfl⟩ := h; simp)
      · simp only [Option.some.injEq, Prod.mk.injEq] at h; obtain ⟨-, rfl⟩ := h; simp
    · cases h
  case start ok =>
    split at h
    · split at h <;>
        (simp only [Option.some.injEq, Prod.mk.injEq] at h; obtain ⟨-, rfl⟩ := h
         simp [Job.finish])
    · cases h
  case procExit =>
    split at h
    · simp only [Option.some.injEq, Prod.mk.injEq] at h; obtain ⟨-, rfl⟩ := h; simp
    · cases h
  case procWait err =>
    split at h
    · simp only [Option.some.injEq, Prod.mk.injEq] at h; obtain ⟨-, rfl⟩ := h; simp
    · cases h
  case waitSeen =>
    split at h
    · split at h
      · simp only [Option.some.injEq, Prod.mk.injEq] at h; obtain ⟨-, rfl⟩ := h
        simp [Job.finish]
      · simp only [Option.some.injEq, Prod.mk.injEq] at h; obtain ⟨-, rfl⟩ := h
        simp [Job.finish]
      · cases h
    · cases h
  case terminateSeen ok =>
    split at h
    · simp only [Option.some.injEq, Prod.mk.injEq] at h; obtain ⟨-, rfl⟩ := h; simp
    · cases h
  case killSeen =>
    split at h
    · simp only [Option.some.injEq, Prod.mk.injEq] at h; obtain ⟨-, rfl⟩ := h
      simp [Job.finish]
    · cases h
  case ctxKill =>
    split at h
    · rename_i hg
      simp only [Option.some.injEq, Prod.mk.injEq] at h; obtain ⟨-, rfl⟩ := h
      simp [hg.1, hg.2.1, hg.2.2.1]
    · cases h

/-- The kill case of the inner select. -/
theorem stepJob_killSeen {cfg : Config} {s s1 : State} {j j1 : Job}
    (h : stepJob cfg s j JobAct.killSeen = some (s1, j1)) :
    j.pc = JobPc.interrupting ∧ 0 < s.kill ∧ j1 = j.finish Outcome.killWaitExpired := by
  simp only [stepJob, finishJob] at h
  split at h
  · rename_i hg
    simp only [Option.some.injEq, Prod.mk.injEq] at h
    exact ⟨hg.1, hg.2, h.2.symm⟩
  · cases h

theorem parseFlags_ok {args : List String}
    (h : parseFlags args = (Except.ok () : Except Halt Unit)) :
    3 ≤ args.length ∧ flagArg args 1 = "--" := by
  unfold parseFlags at h
  split at h
  · cases h
  · rename_i hl
    split at h
    · cases h
    · rename_i hb
      exact ⟨by omega, by simpa using hb⟩


/-- The call `cmd.Start()` and what follows it. -/
theorem stepJob_start {cfg : Config} {s s1 : State} {j j1 : Job} {ok : Bool}
    (h : stepJob cfg s j (JobAct.start ok) = some (s1, j1)) :
    j.pc = JobPc.starting ∧ j1.won = j.won ∧
    (ok = true → j1.pc = JobPc.running ∧ j1.outcome = j.outcome) ∧
    (ok = false → j1.pc = JobPc.returned ∧ j1.outcome = some Outcome.spawnFailed) := by
  simp only [stepJob, finishJob] at h
  split at h
  · rename_i hpc
    split at h
    · rename_i hok
      simp only [Option.some.injEq, Prod.mk.injEq] at h
      obtain ⟨-, rfl⟩ := h
      simp [hpc, hok]
    · rename_i hok
      simp only [Option.some.injEq, Prod.mk.injEq] at h
      obtain ⟨-, rfl⟩ := h
      simp [hpc, hok, Job.finish]
  · cases h

/-- The counts of single-shot mode: processes, calls of `cmd.Start()` and
winners of the guard. -/
theorem once_counts {cfg : Config} {s : State} (hi : ProgInv cfg s)
    (honce : cfg.once = true) :
    s.winners ≤ 1 ∧ s.startCalls ≤ s.winners ∧ s.processes ≤ s.startCalls := by
  refine ⟨countP_le_one _ s.jobs hi.won_unique, ?_, ?_⟩
  · apply sum_map_le_countP
    intro a ha
    obtain ⟨k, hk⟩ := List.getElem?_of_mem ha
    have hjo := hi.jobs_ok k a hk
    rw [hjo.starts]
    by_cases hc : a.pc = JobPc.entry ∨ a.pc = JobPc.starting ∨
        a.outcome = some Outcome.skipped
    · rw [if_pos hc]
      exact Nat.zero_le _
    · rw [if_neg hc]
      have hw := hjo.won_eq (fun e => hc (Or.inl e)) (fun e => hc (Or.inr (Or.inr e)))
      rw [honce] at hw
      simp [hw]
  · apply countP_le_sum_map
    intro a ha
    obtain ⟨k, hk⟩ := List.getElem?_of_mem ha
    have hjo := hi.jobs_ok k a hk
    by_cases hsp : a.spawned = true
    · rw [if_pos hsp, hjo.starts, if_neg]
      rintro (h0 | h0 | h0)
      · rw [hjo.at_entry h0] at hsp
        simp [Job.fresh] at hsp
      · have hne := hjo.outcome_none.mpr (by rw [h0]; simp)
        rcases hjo.spawned.mp hsp with h1 | h1 | h1 | h1 | h1
        · rw [h0] at h1; cases h1
        · rw [h0] at h1; cases h1
        · rw [hne] at h1; cases h1
        · rw [hne] at h1; cases h1
        · rw [hne] at h1; cases h1
      · rw [(hjo.skipped h0).2.2] at hsp
        simp [Job.fresh] at hsp
    · rw [if_neg hsp]
      exact Nat.zero_le _

/-- In single-shot mode, once the winner of the guard is past `cmd.Start()`,
that call has been made exactly once, and there is exactly one process when
it succeeded and none when it failed. -/
theorem winner_counts {cfg : Config} {s : State} {i : Nat} {j : Job}
    (hi : ProgInv cfg s) (honce : cfg.once = true) (hj : s.jobs[i]? = some j)
    (hw : j.won = true) (hpc : j.pc ≠ JobPc.starting) :
    s.startCalls = 1 ∧
    (j.outcome ≠ some Outcome.spawnFailed → j.spawned = true ∧ s.processes = 1) ∧
    (j.outcome = some Outcome.spawnFailed → j.spawned = false ∧ s.processes = 0) := by
  have hjo := hi.jobs_ok i j hj
  obtain ⟨hc1, hc2, hc3⟩ := once_counts hi honce
  have hne : j.pc ≠ JobPc.entry := by
    intro he
    rw [hjo.at_entry he] at hw
    simp [Job.fresh] at hw
  have hns : j.outcome ≠ some Outcome.skipped := by
    intro he
    rw [(hjo.skipped he).2.2] at hw
    simp [Job.fresh] at hw
  have h1 : j.startCalls = 1 := by
    rw [hjo.starts, if_neg]
    rintro (h0 | h0 | h0)
    · exact hne h0
    · exact hpc h0
    · exact hns h0
  have h2 := le_sum_map Job.startCalls s.jobs i j hj
  have h3 : s.startCalls = (s.jobs.map Job.startCalls).sum := rfl
  have hst : s.startCalls = 1 := by omega
  refine ⟨hst, ?_, ?_⟩
  · intro hnf
    have hsp : j.spawned = true := by
      apply hjo.spawned.mpr
      cases hp : j.pc with
      | entry => exact (hne hp).elim
      | starting => exact (hpc hp).elim
      | running => exact Or.inl rfl
      | interrupting => exact Or.inr (Or.inl rfl)
      | returned =>
        cases ho : j.outcome with
        | none =>
          have := hjo.outcome_none.mp ho
          exact (this hp).elim
        | some o =>
          cases o with
          | skipped => exact (hns ho).elim
          | spawnFailed => exact (hnf ho).elim
          | completed => simp
          | completedAfterInterrupt => simp
          | killWaitExpired => simp
    have hpos : 0 < s.jobs.countP (fun j => j.spawned) :=
      countP_pos_of_getElem? (fun j => j.spawned) hj hsp
    have hdef : s.processes = s.jobs.countP (fun j => j.spawned) := rfl
    exact ⟨hsp, by omega⟩
  · intro hf
    have hpr : j.pc = JobPc.returned := by
      by_contra hc
      have := hjo.outcome_none.mpr hc
      rw [hf] at this
      cases this
    have hsp : j.spawned = false := by
      cases hc : j.spawned
      · rfl
      · rcases hjo.spawned.mp hc with h0 | h0 | h0 | h0 | h0
        · rw [hpr] at h0; cases h0
        · rw [hpr] at h0; cases h0
        · rw [hf] at h0; cases h0
        · rw [hf] at h0; cases h0
        · rw [hf] at h0; cases h0
    refine ⟨hsp, ?_⟩
    show s.jobs.countP (fun j => j.spawned) = 0
    rw [List.countP_eq_zero]
    intro a ha hsa
    obtain ⟨k, hk⟩ := List.getElem?_of_mem ha
    have hao := hi.jobs_ok k a hk
    have hae : a.pc ≠ JobPc.entry := by
      intro he
      rw [hao.at_entry he] at hsa
      simp [Job.fresh] at hsa
    have has : a.outcome ≠ some Outcome.skipped := by
      intro he
      rw [(hao.skipped he).2.2] at hsa
      simp [Job.fresh] at hsa
    have haw := hao.won_eq hae has
    rw [honce] at haw
    have hki := hi.won_unique k i a j hk hj haw hw
    subst hki
    rw [hj] at hk
    cases hk
    rw [hsp] at hsa
    cases hsa

/-! ## Properties of the program -/

/-- C1 as stated does not hold: in single-shot mode three firings all run to
their end, the one that wins the guard calls `cmd.Start()`, the call fails,
and no process has been started at all; so it is not the case that exactly
one Run is started in every execution of single-shot mode in which a firing
has executed the guard and all firings have returned. -/
theorem once_guard_no_run_when_start_fails :
    run cfgOnce threeFirings = some (stateAfter cfgOnce threeFirings) ∧
    ((stateAfter cfgOnce threeFirings).jobs.map Job.pc =
      [JobPc.returned, JobPc.returned, JobPc.returned]) ∧
    ((stateAfter cfgOnce threeFirings).jobs.map Job.spawned = [false, false, false]) ∧
    (stateAfter cfgOnce threeFirings).processes = 0 ∧
    ¬ (∀ (cfg : Config) (as : List Action) (s : State), cfg.once = true →
        run cfg as = some s → s.jobs ≠ [] → s.allReturned = true → s.processes = 1) :=
  ⟨rfl, rfl, rfl, rfl, fun hall =>
    absurd (hall cfgOnce threeFirings (stateAfter cfgOnce threeFirings) rfl rfl
      (by decide) rfl) (by decide)⟩

/-- C1 amended: in single-shot mode, in every execution with any number of
firings, at most one firing wins the compare-and-swap on `ran`, and as soon
as one firing has executed the guard exactly one has won.  The winner
proceeds to `cmd.Start()`, which is enabled for it and is called exactly
once overall; exactly one process is started when that call succeeds and
none when it fails.  Every other firing that has executed the guard has
returned at once having done nothing, and its guard step leaves the shared
state (all three signals included) untouched. -/
theorem once_guard_single_run (cfg : Config) (as : List Action) (s : State)
    (honce : cfg.once = true) (h : run cfg as = some s) :
    s.winners ≤ 1 ∧
    ((∃ (i : Nat) (j : Job), s.jobs[i]? = some j ∧ j.pc ≠ JobPc.entry) → s.winners = 1) ∧
    s.startCalls ≤ s.winners ∧
    s.processes ≤ s.startCalls ∧
    (∀ (i : Nat) (j : Job), s.jobs[i]? = some j → j.won = true →
      (j.pc = JobPc.starting →
        ∀ ok, (step cfg s (Action.job i (JobAct.start ok))).isSome = true) ∧
      (j.pc ≠ JobPc.starting → s.startCalls = 1)) ∧
    (∀ (i : Nat) (j : Job), s.jobs[i]? = some j → j.won = false → j.pc ≠ JobPc.entry →
      j = Job.skippedAtGuard) ∧
    (∀ (i : Nat) (j : Job), s.jobs[i]? = some j → j.pc = JobPc.entry → s.ran = true →
      step cfg s (Action.job i JobAct.guard) = some (s.setJob i Job.skippedAtGuard)) ∧
    (∀ (i : Nat) (j : Job), s.jobs[i]? = some j → j.won = true →
      j.pc ≠ JobPc.starting →
      (j.outcome ≠ some Outcome.spawnFailed → j.spawned = true ∧ s.processes = 1) ∧
      (j.outcome = some Outcome.spawnFailed → j.spawned = false ∧ s.processes = 0)) ∧
    (∀ (i : Nat) (j : Job) (ok : Bool) (s1 : State), s.jobs[i]? = some j →
      j.won = true → step cfg s (Action.job i (JobAct.start ok)) = some s1 →
      s1.startCalls = 1 ∧ s1.processes = (if ok = true then 1 else 0)) := by
  have hi := inv_run h
  obtain ⟨hle, hstarts, hprocs⟩ := once_counts hi honce
  refine ⟨hle, ?_, hstarts, hprocs, ?_, ?_, ?_, ?_, ?_⟩
  · rintro ⟨i, j, hj, hpc⟩
    have hjo := hi.jobs_ok i j hj
    have hran : s.ran = true := by
      by_cases hsk : j.outcome = some Outcome.skipped
      · exact (hjo.skipped hsk).2.1
      · have hw := hjo.won_eq hpc hsk
        rw [honce] at hw
        exact (hjo.won_once hw).2
    obtain ⟨k, a, hk, ha⟩ := hi.ran_won hran
    have hpos := countP_pos_of_getElem? (fun j => j.won) hk ha
    have : 0 < s.winners := hpos
    omega
  · intro i j hj hw
    constructor
    · intro hpc ok
      have hr := running_of_unreturned hi hj (by rw [hpc]; simp)
      rw [step_job_eq hr hj]
      cases ok <;> simp [stepJob, hpc]
    · intro hpc
      exact (winner_counts hi honce hj hw hpc).1
  · intro i j hj hw hpc
    have hjo := hi.jobs_ok i j hj
    by_cases hsk : j.outcome = some Outcome.skipped
    · exact (hjo.skipped hsk).2.2
    · have := hjo.won_eq hpc hsk
      rw [honce, hw] at this
      cases this
  · intro i j hj hpc hran
    have hjo := hi.jobs_ok i j hj
    have hr := running_of_unreturned hi hj (by rw [hpc]; simp)
    rw [step_job_eq hr hj, hjo.at_entry hpc]
    simp [stepJob, Job.fresh, honce, hran, Job.skippedAtGuard]
  · intro i j hj hw hpc
    exact (winner_counts hi honce hj hw hpc).2
  · intro i j ok s1 hj hw hs
    have hi1 := inv_step hi hs
    obtain ⟨j', s2, j1, hj', hsj, -, hset, -⟩ := step_job_cases hi hs
    rw [hj] at hj'
    cases hj'
    obtain ⟨hpc, hw1, hok, hfail⟩ := stepJob_start hsj
    have hout : j.outcome = none :=
      (hi.jobs_ok i j hj).outcome_none.mpr (by rw [hpc]; simp)
    cases ok with
    | true =>
      obtain ⟨hp1, ho1⟩ := hok rfl
      have hc := winner_counts hi1 honce hset (by rw [hw1]; exact hw)
        (by rw [hp1]; simp)
      refine ⟨hc.1, ?_⟩
      have := (hc.2.1 (by rw [ho1, hout]; simp)).2
      simpa using this
    | false =>
      obtain ⟨hp1, ho1⟩ := hfail rfl
      have hc := winner_counts hi1 honce hset (by rw [hw1]; exact hw)
        (by rw [hp1]; simp)
      refine ⟨hc.1, ?_⟩
      have := (hc.2.2 ho1).2
      simpa using this

theorem once_guard_single_run_witness :
    run cfgOnce onceStarted = some (stateAfter cfgOnce onceStarted) ∧
    (stateAfter cfgOnce onceStarted).jobs.length = 2 ∧
    (stateAfter cfgOnce onceStarted).jobs[1]? = some (jobAfter cfgOnce onceStarted 1) ∧
    (jobAfter cfgOnce onceStarted 1).won = true ∧
    (stateAfter cfgOnce onceStarted).winners = 1 ∧
    (stateAfter cfgOnce onceStarted).startCalls = 1 ∧
    (jobAfter cfgOnce onceStarted 1).spawned = true ∧
    (stateAfter cfgOnce onceStarted).processes = 1 ∧
    (stateAfter cfgOnce onceStarted).jobs[0]? = some Job.skippedAtGuard :=
  have hw := once_guard_single_run cfgOnce onceStarted (stateAfter cfgOnce onceStarted)
    rfl rfl
  have hp := (hw.2.2.2.2.2.2.2.1 1 (jobAfter cfgOnce onceStarted 1) rfl rfl
    (by decide)).1 (by decide)
  ⟨rfl, rfl, rfl, rfl, hw.2.1 ⟨0, _, rfl, by decide⟩,
    (hw.2.2.2.2.1 1 (jobAfter cfgOnce onceStarted 1) rfl rfl).2 (by decide),
    hp.1, hp.2, rfl⟩

/-- C3: the program reaches its end (exit code 0) only by receiving the
completion signal of the scheduler: `main` has ended exactly when the exit
code is 0, at that point every dispatched invocation of the callback has
returned, the only step that ends `main` is the reception of the completion
signal, and after `close(kill)` the orchestrator can do nothing but wait for
that signal. -/
theorem main_ends_after_completion (cfg : Config) (as : List Action) (s : State)
    (h : run cfg as = some s) :
    (s.status = Status.exited 0 ↔ s.main = MainPc.ended) ∧
    (s.main = MainPc.ended →
      ∀ (i : Nat) (j : Job), s.jobs[i]? = some j → j.pc = JobPc.returned) ∧
    (∀ a s1, step cfg s a = some s1 → s1.main = MainPc.ended →
      a = Action.main MainAct.cronDone ∧ s1.jobs = s.jobs ∧
      ∀ (i : Nat) (j : Job), s.jobs[i]? = some j → j.pc = JobPc.returned) ∧
    (s.main = MainPc.killWait →
      s.kill = 1 ∧
      ∀ m s1, step cfg s (Action.main m) = some s1 →
        m = MainAct.cronDone ∧
        ∀ (i : Nat) (j : Job), s.jobs[i]? = some j → j.pc = JobPc.returned) := by
  have hi := inv_run h
  refine ⟨?_, ?_, ?_, ?_⟩
  · constructor
    · intro hs
      rcases hi.exit_code 0 hs with ⟨h0, -⟩ | ⟨h0, -⟩ | ⟨-, hm⟩
      · cases h0
      · cases h0
      · exact hm
    · intro hm
      exact (hi.ended hm).1
  · intro hm
    exact (all_returned_iff s).mp (hi.ended hm).2
  · intro a s1 hs he
    obtain ⟨hr, hc⟩ := step_cases hs
    have hne : s.main ≠ MainPc.ended := by
      intro hm
      have := (hi.ended hm).1
      rw [hr] at this
      cases this
    rcases hc with ⟨m, rfl, hm⟩ | ⟨-, -, rfl⟩ | ⟨i, b, j, s2, j1, -, hj, hs2, rfl⟩ |
      ⟨-, -, -, rfl⟩
    rotate_right
    · exact (hne he).elim
    · have hjobs := (stepMain_effect hm).2.2.2.1
      rcases stepMain_pc hm with ⟨-, -, h3⟩ | ⟨-, -, h3⟩ | ⟨-, -, h3⟩ | ⟨-, -, h3⟩ |
        ⟨-, -, -, h3⟩ | ⟨-, -, h3⟩ | ⟨rfl, -, hall, -⟩ | ⟨-, -, h3⟩
      · exact (h3 he).elim
      · exact (h3 he).elim
      · rw [h3] at he; cases he
      · rw [h3] at he; cases he
      · rw [h3] at he; cases he
      · rcases h3 with h3 | h3 <;> (rw [h3] at he; cases he)
      · exact ⟨rfl, hjobs, (all_returned_iff s).mp hall⟩
      · rw [h3] at he; cases he
    · exact (hne he).elim
    · have hf := stepJob_frame
        (fun hpc => by rw [(hi.jobs_ok i j hj).at_entry hpc]; rfl) hs2
      have : s2.main = MainPc.ended := he
      rw [hf.main_eq] at this
      exact (hne this).elim
  · intro hm
    refine ⟨hi.kill_wait hm, ?_⟩
    intro m s1 hs
    obtain ⟨-, hc⟩ := step_cases hs
    rcases hc with ⟨m1, hm1, hm2⟩ | ⟨hm1, -⟩ | ⟨i, b, j, s2, j1, hm1, -⟩ | ⟨hm1, -⟩
    rotate_right
    · cases hm1
    · cases hm1
      rcases stepMain_pc hm2 with ⟨-, h3, -⟩ | ⟨-, h3, -⟩ | ⟨-, h3, -⟩ | ⟨-, h3, -⟩ |
        ⟨-, h3, -⟩ | ⟨-, h3, -⟩ | ⟨rfl, -, hall, -⟩ | ⟨-, h3, -⟩
      all_goals first
        | exact ⟨rfl, (all_returned_iff s).mp hall⟩
        | (rw [hm] at h3; cases h3)
    · cases hm1
    · cases hm1

theorem main_ends_after_completion_witness :
    run cfgRecurring gracefulRun = some (stateAfter cfgRecurring gracefulRun) ∧
    (stateAfter cfgRecurring gracefulRun).status = Status.exited 0 ∧
    (stateAfter cfgRecurring gracefulRun).main = MainPc.ended ∧
    ((stateAfter cfgRecurring gracefulRun).jobs.map Job.pc) = [JobPc.returned] ∧
    ((stateAfter cfgRecurring gracefulRun).status = Status.exited 0 ↔
      (stateAfter cfgRecurring gracefulRun).main = MainPc.ended) :=
  ⟨rfl, rfl, rfl, rfl,
    (main_ends_after_completion cfgRecurring gracefulRun
      (stateAfter cfgRecurring gracefulRun) rfl).1⟩

/-- C4 as stated does not hold: an execution in which the coordinator leaves its
wait because `kill` fired, returns, and the context watcher of the command
then calls `Process.Kill()` on the child that is still running: the child
has received the graceful interrupt and a forceful kill. -/
theorem forceful_kill_after_kill_wait :
    run cfgRecurring forcefulKillRun = some (stateAfter cfgRecurring forcefulKillRun) ∧
    ((stateAfter cfgRecurring forcefulKillRun).jobs.map Job.outcome =
      [some Outcome.killWaitExpired]) ∧
    ((stateAfter cfgRecurring forcefulKillRun).jobs.map Job.procExited = [false]) ∧
    ((stateAfter cfgRecurring forcefulKillRun).jobs.map Job.interrupts = [1]) ∧
    ((stateAfter cfgRecurring forcefulKillRun).jobs.map Job.sigkills = [1]) ∧
    ¬ (∀ (cfg : Config) (as : List Action) (s : State) (i : Nat) (j : Job),
        run cfg as = some s → s.jobs[i]? = some j →
        j.outcome = some Outcome.killWaitExpired → j.sigkills = 0) :=
  ⟨rfl, rfl, rfl, rfl, rfl, fun hall =>
    absurd (hall cfgRecurring forcefulKillRun (stateAfter cfgRecurring forcefulKillRun) 0
      _ rfl rfl rfl) (by decide)⟩

/-- C4 amended: the coordinator itself never sends a forceful kill.  While
an invocation of the callback has not returned, no `Process.Kill()` has been
called on its child, and taking the kill case only makes it return (outcome
`killWaitExpired`, one interrupt sent, no kill sent, context cancelled by
the deferred `cancel()`).  A forceful kill comes from the context watcher of
`exec.CommandContext` alone, at most once per run, and only for a run that
ended by `killWaitExpired` and whose `cmd.Wait()` has not returned. -/
theorem forceful_kill_only_by_context (cfg : Config) (as : List Action) (s : State)
    (h : run cfg as = some s) :
    ∀ (i : Nat) (j : Job), s.jobs[i]? = some j →
      j.sigkills ≤ 1 ∧
      (j.pc ≠ JobPc.returned → j.sigkills = 0) ∧
      (0 < j.sigkills →
        j.outcome = some Outcome.killWaitExpired ∧ j.interrupts = 1 ∧
        j.ctxCancelled = true ∧ 0 < s.kill) ∧
      (∀ (s1 : State) (j1 : Job), step cfg s (Action.job i JobAct.killSeen) = some s1 →
        s1.jobs[i]? = some j1 →
        j1.pc = JobPc.returned ∧ j1.outcome = some Outcome.killWaitExpired ∧
        j1.interrupts = 1 ∧ j1.sigkills = 0 ∧ j1.ctxCancelled = true) ∧
      (∀ (b : JobAct) (s1 : State) (j1 : Job), step cfg s (Action.job i b) = some s1 →
        s1.jobs[i]? = some j1 → j1.sigkills ≠ j.sigkills →
        b = JobAct.ctxKill ∧ j.outcome = some Outcome.killWaitExpired ∧
        j.ctxCancelled = true ∧ j.waitClosed = false ∧ j.sigkills = 0 ∧
        j1.sigkills = 1) := by
  have hi := inv_run h
  intro i j hj
  have hjo := hi.jobs_ok i j hj
  have hzero : j.pc ≠ JobPc.returned → j.sigkills = 0 := by
    intro hpc
    rcases Nat.eq_zero_or_pos j.sigkills with h0 | h0
    · exact h0
    · have h1 := hjo.sigkills_pos h0
      rw [hjo.outcome_none.mpr hpc] at h1
      cases h1
  refine ⟨hjo.sigkills_le, hzero, ?_, ?_, ?_⟩
  · intro hp
    have ho := hjo.sigkills_pos hp
    have hsaw : j.sawTerminate = true := hjo.saw.mpr (Or.inr (Or.inr ho))
    have hpc : j.pc = JobPc.returned := by
      by_contra hne
      have := hjo.outcome_none.mpr hne
      rw [ho] at this
      cases this
    refine ⟨ho, by rw [hjo.interrupts, if_pos hsaw], ?_, hjo.kwe_kill ho⟩
    exact hjo.cancelled.mpr ⟨hpc, by rw [ho]; simp⟩
  · intro s1 j1 hs hj1
    obtain ⟨j', s2, j1', hj', hsj, rfl, hset, -⟩ := step_job_cases hi hs
    rw [hj] at hj'
    cases hj'
    rw [hj1] at hset
    cases hset
    obtain ⟨hpc, -, rfl⟩ := stepJob_killSeen hsj
    have hsaw : j.sawTerminate = true := hjo.saw.mpr (Or.inl hpc)
    have h0 := hzero (by rw [hpc]; simp)
    refine ⟨rfl, rfl, ?_, h0, rfl⟩
    show j.interrupts = 1
    rw [hjo.interrupts, if_pos hsaw]
  · intro b s1 j1 hs hj1 hne
    obtain ⟨j', s2, j1', hj', hsj, rfl, hset, -⟩ := step_job_cases hi hs
    rw [hj] at hj'
    cases hj'
    rw [hj1] at hset
    cases hset
    rcases stepJob_sigkills hsj with h1 | ⟨hb, -, hc, hw, h1, -⟩
    · exact (hne h1).elim
    · have hpc := (hjo.cancelled.mp hc).1
      have hle := (hi.jobs_ok i j hj).sigkills_le
      simp only [stepJob] at hsj
      rw [hb] at hsj
      simp only at hsj
      split at hsj
      · rename_i hg
        have hz := hg.2.2.2
        have ho : j.outcome = some Outcome.killWaitExpired := by
          have hns := (hjo.cancelled.mp hc).2
          have hsp := hjo.spawned.mp hg.1
          rcases hsp with h2 | h2 | h2 | h2 | h2
          · rw [hpc] at h2; cases h2
          · rw [hpc] at h2; cases h2
          · have := hjo.completed_wait (Or.inl h2)
            rw [hw] at this; cases this
          · have := hjo.completed_wait (Or.inr h2)
            rw [hw] at this; cases this
          · exact h2
        exact ⟨hb, ho, hc, hw, hz, by rw [h1, hz]⟩
      · cases hsj

theorem forceful_kill_only_by_context_witness :
    run cfgRecurring forcefulKillRun = some (stateAfter cfgRecurring forcefulKillRun) ∧
    (stateAfter cfgRecurring forcefulKillRun).jobs[0]? =
      some (jobAfter cfgRecurring forcefulKillRun 0) ∧
    0 < (jobAfter cfgRecurring forcefulKillRun 0).sigkills ∧
    (jobAfter cfgRecurring forcefulKillRun 0).sigkills ≤ 1 ∧
    (jobAfter cfgRecurring forcefulKillRun 0).outcome = some Outcome.killWaitExpired ∧
    (jobAfter cfgRecurring forcefulKillRun 0).interrupts = 1 ∧
    (jobAfter cfgRecurring forcefulKillRun 0).ctxCancelled = true ∧
    0 < (stateAfter cfgRecurring forcefulKillRun).kill :=
  have hw := forceful_kill_only_by_context cfgRecurring forcefulKillRun
    (stateAfter cfgRecurring forcefulKillRun) rfl 0
    (jobAfter cfgRecurring forcefulKillRun 0) rfl
  ⟨rfl, rfl, by decide, hw.1, hw.2.2.1 (by decide)⟩

/-- C5: in every execution, the kill case of a coordinator's select can only
be taken by an invocation that is at the inner select, that is, after it has
taken the terminate case and called `Signal(os.Interrupt)` once, with
`terminate` closed; so every invocation that ended with the outcome
`killWaitExpired` had observed terminate and sent the interrupt before.  And
in any state whatever, an invocation at the outer select with `kill` closed
and `terminate` open cannot take the kill case nor the terminate case: each
of its actions leaves it at the outer select, except the reception of the
run's completion; once `terminate` is closed it can take the terminate
case. -/
theorem terminate_precedes_kill (cfg : Config) (as : List Action) (s : State)
    (h : run cfg as = some s) :
    (∀ (i : Nat) (s1 : State), step cfg s (Action.job i JobAct.killSeen) = some s1 →
      ∃ j, s.jobs[i]? = some j ∧ j.pc = JobPc.interrupting ∧ j.sawTerminate = true ∧
        j.interrupts = 1 ∧ 0 < s.terminate ∧ 0 < s.kill) ∧
    (∀ (i : Nat) (j : Job), s.jobs[i]? = some j →
      j.outcome = some Outcome.killWaitExpired →
      j.sawTerminate = true ∧ j.interrupts = 1 ∧ 0 < s.terminate ∧ 0 < s.kill) ∧
    (∀ (t : State) (i : Nat) (j : Job), t.jobs[i]? = some j → j.pc = JobPc.running →
      0 < t.kill → t.terminate = 0 →
      step cfg t (Action.job i JobAct.killSeen) = none ∧
      (∀ ok, step cfg t (Action.job i (JobAct.terminateSeen ok)) = none) ∧
      (∀ (b : JobAct) (t1 : State), step cfg t (Action.job i b) = some t1 →
        ∃ j1, t1.jobs[i]? = some j1 ∧
          (j1.pc = JobPc.running ∨
            (b = JobAct.waitSeen ∧ j.waitClosed = true ∧
              j1.outcome = some Outcome.completed))) ∧
      (t.status = Status.running → ∀ ok,
        (step cfg { t with terminate := 1 }
          (Action.job i (JobAct.terminateSeen ok))).isSome = true)) := by
  have hi := inv_run h
  refine ⟨?_, ?_, ?_⟩
  · intro i s1 hs
    obtain ⟨j, s2, j1, hj, hsj, -, -, -, -, -, hjo, -⟩ := step_job_cases hi hs
    obtain ⟨hpc, hk, -⟩ := stepJob_killSeen hsj
    have hsaw : j.sawTerminate = true := hjo.saw.mpr (Or.inl hpc)
    refine ⟨j, hj, hpc, hsaw, ?_, hjo.saw_term hsaw, hk⟩
    rw [hjo.interrupts, if_pos hsaw]
  · intro i j hj ho
    have hjo := hi.jobs_ok i j hj
    have hsaw : j.sawTerminate = true := hjo.saw.mpr (Or.inr (Or.inr ho))
    refine ⟨hsaw, ?_, hjo.saw_term hsaw, hjo.kwe_kill ho⟩
    rw [hjo.interrupts, if_pos hsaw]
  · intro t i j hj hpc hk ht
    refine ⟨?_, ?_, ?_, ?_⟩
    · unfold step
      split
      · simp [hj, stepJob, hpc]
      · rfl
    · intro ok
      unfold step
      split
      · simp [hj, stepJob, hpc, ht]
      · rfl
    · intro b t1 hs
      obtain ⟨-, hc⟩ := step_cases hs
      rcases hc with ⟨m, hm, -⟩ | ⟨hm, -⟩ | ⟨i1, b1, j', t2, j1, he, hj', hsj, rfl⟩ |
        ⟨hm, -⟩
      rotate_right
      · cases hm
      · cases hm
      · cases hm
      · cases he
        rw [hj] at hj'
        cases hj'
        have hf := stepJob_frame (fun e => by rw [hpc] at e; cases e) hsj
        have hset : (t2.setJob i j1).jobs[i]? = some j1 := by
          simp only [State.setJob]
          rw [hf.jobs_eq]
          exact getElem?_set_of_some _ hj
        refine ⟨j1, hset, ?_⟩
        rcases stepJob_running hpc hsj with ⟨h1, -⟩ | ⟨h1, h2, -, h3, -⟩ | ⟨ok, -, h1, -⟩
        · exact Or.inl h1
        · exact Or.inr ⟨h1, h2, h3⟩
        · omega
    · intro hr ok
      simp [step, hr, hj, stepJob, hpc]

theorem terminate_precedes_kill_witness :
    run cfgRecurring killedRun = some (stateAfter cfgRecurring killedRun) ∧
    ((stateAfter cfgRecurring killedRun).jobs.map Job.outcome =
      [some Outcome.killWaitExpired]) ∧
    ((stateAfter cfgRecurring killedRun).jobs.map Job.sawTerminate = [true]) ∧
    ((stateAfter cfgRecurring killedRun).jobs.map Job.interrupts = [1]) ∧
    0 < (stateAfter cfgRecurring killedRun).terminate ∧
    0 < (stateAfter cfgRecurring killedRun).kill ∧
    step cfgRecurring killBeforeTerminate (Action.job 0 JobAct.killSeen) = none ∧
    (∀ ok, step cfgRecurring killBeforeTerminate
      (Action.job 0 (JobAct.terminateSeen ok)) = none) :=
  have hw := terminate_precedes_kill cfgRecurring killedRun
    (stateAfter cfgRecurring killedRun) rfl
  have h2 := hw.2.1 0 _ rfl rfl
  have h3 := hw.2.2 killBeforeTerminate 0 _ rfl rfl (by decide) rfl
  ⟨rfl, rfl, rfl, rfl, h2.2.2.1, h2.2.2.2, h3.1, h3.2.1⟩

/-- C6: only a firing that won the once guard ever closes `stop`, which it
does exactly once, in the very step in which it returns, whatever its
outcome (process completed, completed after an interrupt, kill wait expired,
process failed to start); the number of calls of `close(stop)` over all
firings equals the close count of the channel and is at most one; a firing
that did not win never closes it, and in recurring mode `stop` is never
closed. -/
theorem stop_fired_once_by_winner (cfg : Config) (as : List Action) (s : State)
    (h : run cfg as = some s) :
    (∀ (i : Nat) (j : Job), s.jobs[i]? = some j →
      (j.won = true → cfg.once = true) ∧
      j.stopCloses = (if j.won = true ∧ j.pc = JobPc.returned then 1 else 0) ∧
      (j.won = true → ∀ o, j.outcome = some o →
        (o = Outcome.completed ∨ o = Outcome.completedAfterInterrupt ∨
          o = Outcome.killWaitExpired ∨ o = Outcome.spawnFailed) ∧
        j.pc = JobPc.returned ∧ j.stopCloses = 1 ∧ s.stop = 1)) ∧
    s.stop = s.stopCloses ∧ s.stop ≤ 1 ∧
    (cfg.once = false → s.stop = 0) ∧
    (∀ (i : Nat) (b : JobAct) (s1 : State) (j j1 : Job), s.jobs[i]? = some j →
      step cfg s (Action.job i b) = some s1 → s1.jobs[i]? = some j1 →
      s1.stop = s.stop +
        (if j.won = true ∧ j.pc ≠ JobPc.returned ∧ j1.pc = JobPc.returned then 1 else 0)) := by
  have hi := inv_run h
  have hper : ∀ (i : Nat) (j : Job), s.jobs[i]? = some j →
      j.stopCloses = (if j.won = true ∧ j.pc = JobPc.returned then 1 else 0) := by
    intro i j hj
    have hjo := hi.jobs_ok i j hj
    rw [hjo.stop_closes]
    by_cases hw : j.won = true
    · have hns : j.outcome ≠ some Outcome.skipped := by
        intro he
        rw [(hjo.skipped he).2.2] at hw
        simp [Job.fresh] at hw
      by_cases hpc : j.pc = JobPc.returned
      · have hc : j.ctxCancelled = true := hjo.cancelled.mpr ⟨hpc, hns⟩
        simp [hc, hw, hpc]
      · have hc : ¬ j.ctxCancelled = true := fun e => hpc (hjo.cancelled.mp e).1
        simp [hc, hpc]
    · simp [hw]
  have hsum : s.stopCloses =
      s.jobs.countP (fun j => j.won && decide (j.pc = JobPc.returned)) := by
    apply sum_map_eq_countP
    intro a ha
    obtain ⟨k, hk⟩ := List.getElem?_of_mem ha
    rw [hper k a hk]
    simp
  have hcount : s.stop =
      s.jobs.countP (fun j => j.won && decide (j.pc = JobPc.returned)) := by
    have hle : s.jobs.countP (fun j => j.won && decide (j.pc = JobPc.returned)) ≤ 1 := by
      apply countP_le_one
      intro i k a b hia hkb ha hb
      simp only [Bool.and_eq_true, decide_eq_true_eq] at ha hb
      exact hi.won_unique i k a b hia hkb ha.1 hb.1
    rcases Nat.eq_zero_or_pos s.stop with h0 | h0
    · rw [h0]
      symm
      rw [List.countP_eq_zero]
      intro a ha hp
      simp only [Bool.and_eq_true, decide_eq_true_eq] at hp
      obtain ⟨k, hk⟩ := List.getElem?_of_mem ha
      have := hi.stop_done k a hk hp.1 hp.2
      omega
    · obtain ⟨k, a, hk, hw, hpc⟩ := hi.stop_closed h0
      have hpos := countP_pos_of_getElem?
        (fun j => j.won && decide (j.pc = JobPc.returned)) hk (by simp [hw, hpc])
      have := hi.stop_le
      omega
  refine ⟨?_, ?_, hi.stop_le, ?_, ?_⟩
  · intro i j hj
    have hjo := hi.jobs_ok i j hj
    refine ⟨fun hw => (hjo.won_once hw).1, hper i j hj, ?_⟩
    intro hw o ho
    have hpc : j.pc = JobPc.returned := by
      by_contra hne
      have := hjo.outcome_none.mpr hne
      rw [ho] at this
      cases this
    have hns : j.outcome ≠ some Outcome.skipped := by
      intro he
      rw [(hjo.skipped he).2.2] at hw
      simp [Job.fresh] at hw
    refine ⟨?_, hpc, ?_, hi.stop_done i j hj hw hpc⟩
    · cases o
      · exact (hns ho).elim
      all_goals simp
    · rw [hper i j hj]
      simp [hw, hpc]
  · rw [hcount, hsum]
  · intro ho
    rcases Nat.eq_zero_or_pos s.stop with h0 | h0
    · exact h0
    · obtain ⟨k, a, hk, hw, -⟩ := hi.stop_closed h0
      have := ((hi.jobs_ok k a hk).won_once hw).1
      rw [ho] at this
      cases this
  · intro i b s1 j j1 hj hs hj1
    obtain ⟨j', s2, j1', hj', -, rfl, hset, hf, -⟩ := step_job_cases hi hs
    rw [hj] at hj'
    cases hj'
    rw [hj1] at hset
    cases hset
    exact hf.stop_eq

theorem stop_fired_once_by_winner_witness :
    run cfgOnce threeFirings = some (stateAfter cfgOnce threeFirings) ∧
    ((stateAfter cfgOnce threeFirings).jobs.map Job.won = [false, true, false]) ∧
    ((stateAfter cfgOnce threeFirings).jobs.map Job.outcome =
      [some Outcome.skipped, some Outcome.spawnFailed, some Outcome.skipped]) ∧
    ((stateAfter cfgOnce threeFirings).jobs.map Job.stopCloses = [0, 1, 0]) ∧
    (stateAfter cfgOnce threeFirings).stop = (stateAfter cfgOnce threeFirings).stopCloses ∧
    (stateAfter cfgOnce threeFirings).stop ≤ 1 :=
  have hw := stop_fired_once_by_winner cfgOnce threeFirings
    (stateAfter cfgOnce threeFirings) rfl
  ⟨rfl, rfl, rfl, rfl, hw.2.1, hw.2.2.1⟩

/-- C7: in every execution (any mode, any kill timeout, any number and
interleaving of firings, either wake-up cause) each of `terminate`, `stop`
and `kill` is closed at most once, so the program never panics on a second
`close`; and a count never decreases afterwards: a fired signal stays
fired. -/
theorem signals_fire_at_most_once (cfg : Config) (as bs : List Action) (s s1 : State)
    (h : run cfg as = some s) (h1 : runFrom cfg s bs = some s1) :
    (s.terminate ≤ 1 ∧ s.stop ≤ 1 ∧ s.kill ≤ 1 ∧ s.status ≠ Status.panicked) ∧
    (s.terminate ≤ s1.terminate ∧ s.stop ≤ s1.stop ∧ s.kill ≤ s1.kill) ∧
    (s1.terminate ≤ 1 ∧ s1.stop ≤ 1 ∧ s1.kill ≤ 1 ∧ s1.status ≠ Status.panicked) := by
  have hi := inv_run h
  have hi1 := inv_runFrom bs hi h1
  obtain ⟨h2, h3, h4⟩ := runFrom_counts bs hi h1
  exact ⟨⟨hi.term_le, hi.stop_le, hi.kill_le, hi.not_panicked⟩, ⟨h2, h3, by omega⟩,
    ⟨hi1.term_le, hi1.stop_le, hi1.kill_le, hi1.not_panicked⟩⟩

theorem signals_fire_at_most_once_witness :
    run cfgRecurring interruptedRun = some (stateAfter cfgRecurring interruptedRun) ∧
    runFrom cfgRecurring (stateAfter cfgRecurring interruptedRun)
        [Action.timerExpire, Action.main MainAct.killTimer,
          Action.job 0 JobAct.killSeen] =
      some (stateAfter cfgRecurring killedRun) ∧
    (stateAfter cfgRecurring interruptedRun).terminate = 1 ∧
    (stateAfter cfgRecurring interruptedRun).kill = 0 ∧
    (stateAfter cfgRecurring killedRun).kill = 1 ∧
    (stateAfter cfgRecurring killedRun).terminate ≤ 1 ∧
    (stateAfter cfgRecurring killedRun).stop ≤ 1 ∧
    (stateAfter cfgRecurring killedRun).kill ≤ 1 ∧
    (stateAfter cfgRecurring killedRun).status ≠ Status.panicked :=
  ⟨rfl, rfl, rfl, rfl, rfl,
    (signals_fire_at_most_once cfgRecurring interruptedRun
      [Action.timerExpire, Action.main MainAct.killTimer, Action.job 0 JobAct.killSeen]
      (stateAfter cfgRecurring interruptedRun) (stateAfter cfgRecurring killedRun)
      rfl rfl).2.2⟩

/-- C8: `parseFlags` rejects the invocation (a message, then the usage text,
then exit code 2) exactly when there are fewer than three positional
arguments or the second one is not the literal `--`; for every accepted list
the schedule expression is element 0, the program is element 2, the
program's arguments are the elements from index 3 on, and `main` reaches
`c.AddFunc` with them without any out-of-range access. -/
theorem parseFlags_contract (cfg : Config) :
    ((∃ h, parseFlags cfg.args = Except.error h) ↔
      (cfg.args.length < 3 ∨ cfg.args[1]? ≠ some "--")) ∧
    (∀ h, parseFlags cfg.args = Except.error h →
      h.code = 2 ∧ (∃ msg, h.printed = Printed.line msg :: usage) ∧
      run cfg [Action.main MainAct.parseFlags] =
        some { State.init with status := Status.exited 2 }) ∧
    (parseFlags cfg.args = Except.ok () →
      ∃ e p rest, cfg.args = e :: "--" :: p :: rest ∧
        flagArg cfg.args 0 = e ∧ flagArg cfg.args 2 = p ∧
        flagArgsFrom cfg.args 3 = some rest ∧
        run cfg [Action.main MainAct.parseFlags] =
          some { State.init with programName := p, programArgs := rest,
                                 main := MainPc.addFunc }) := by
  obtain ⟨d, o, k, args, ps⟩ := cfg
  simp only
  rcases args with _ | ⟨a, _ | ⟨b, _ | ⟨c, rest⟩⟩⟩
  · simp [parseFlags, usageError, run, runFrom, step, stepMain, State.init]
  · simp [parseFlags, usageError, run, runFrom, step, stepMain, State.init]
  · simp [parseFlags, usageError, run, runFrom, step, stepMain, State.init]
  · have hl : ¬ (rest.length + 1 + 1 + 1 < 3) := by omega
    by_cases hb : b = "--"
    · subst hb
      simp [parseFlags, flagArg, flagArgsFrom, run, runFrom, step, stepMain, State.init, hl]
      exact ⟨a, c, rest, ⟨rfl, rfl, rfl⟩, rfl, rfl, rfl, rfl, rfl⟩
    · simp [parseFlags, flagArg, usageError, run, runFrom, step, stepMain, State.init, hb, hl]

theorem parseFlags_contract_witness :
    ∃ e p rest, exampleArgs = e :: "--" :: p :: rest ∧
      flagArg exampleArgs 0 = e ∧ flagArg exampleArgs 2 = p ∧
      flagArgsFrom exampleArgs 3 = some rest ∧
      run cfgRecurring [Action.main MainAct.parseFlags] =
        some { State.init with programName := p, programArgs := rest,
                               main := MainPc.addFunc } :=
  (parseFlags_contract cfgRecurring).2.2 rfl

/-- C9: when the parser rejects the schedule expression, every execution
stays in front of `c.Start()`: the scheduler is never started, no firing is
dispatched, the only enabled actions are `parseFlags` and `AddFunc`, and the
program exits with code 1.  Conversely no action of a firing, of its wait
goroutine or of its process (a failed `cmd.Start()`, a `cmd.Wait()` error, a
failed interrupt included) changes the exit status, the program point of
`main`, the scheduler or another firing: the program stays running; a failed
`cmd.Start()` ends that firing only, and a non-zero exit code is only ever
produced before the scheduler is started. -/
theorem errors_stay_local (cfg : Config) (as : List Action) (s : State)
    (h : run cfg as = some s) :
    (parseFlags cfg.args = (Except.ok () : Except Halt Unit) →
      cfg.parses (flagArg cfg.args 0) = false →
      s.cronRunning = false ∧ s.jobs = [] ∧ s.status ≠ Status.exited 0 ∧
      (∀ a s1, step cfg s a = some s1 →
        a = Action.main MainAct.parseFlags ∨ a = Action.main MainAct.addFunc) ∧
      (run cfg [Action.main MainAct.parseFlags, Action.main MainAct.addFunc]).map
        (fun s1 => (s1.status, s1.cronRunning, s1.jobs)) =
          some (Status.exited 1, false, [])) ∧
    (∀ (i : Nat) (b : JobAct) (s1 : State), step cfg s (Action.job i b) = some s1 →
      s.status = Status.running ∧ s1.status = Status.running ∧ s1.main = s.main ∧
      s1.cronRunning = s.cronRunning ∧ s1.jobs.length = s.jobs.length ∧
      ∀ (k : Nat), k ≠ i → s1.jobs[k]? = s.jobs[k]?) ∧
    (∀ (i : Nat) (j : Job), s.jobs[i]? = some j → j.pc = JobPc.starting →
      ∃ s1 j1, step cfg s (Action.job i (JobAct.start false)) = some s1 ∧
        s1.jobs[i]? = some j1 ∧ j1.pc = JobPc.returned ∧
        j1.outcome = some Outcome.spawnFailed ∧ j1.spawned = false) ∧
    (∀ c, s.status = Status.exited c → c ≠ 0 →
      (c = 1 ∨ c = 2) ∧ s.cronRunning = false ∧ s.jobs = []) := by
  have hi := inv_run h
  refine ⟨?_, ?_, ?_, ?_⟩
  · intro hpf hps
    have hmain : s.main = MainPc.parse ∨ s.main = MainPc.addFunc := by
      by_contra hc
      have := hi.accepted (fun e => hc (Or.inl e)) (fun e => hc (Or.inr e))
      rw [hps] at this
      cases this
    have hearly := hi.early (by
      rcases hmain with h1 | h1
      · exact Or.inl h1
      · exact Or.inr (Or.inl h1))
    have hcron : s.cronRunning = false := by
      cases hc : s.cronRunning
      · rfl
      · rcases hi.cron.mp hc with h1 | h1 <;> rcases hmain with h2 | h2 <;>
          (rw [h1] at h2; cases h2)
    refine ⟨hcron, hearly.1, ?_, ?_, ?_⟩
    · intro hs
      rcases hi.exit_code 0 hs with ⟨h0, -⟩ | ⟨h0, -⟩ | ⟨-, hm⟩
      · cases h0
      · cases h0
      · rcases hmain with h2 | h2 <;> (rw [hm] at h2; cases h2)
    · intro a s1 hs
      obtain ⟨-, hc⟩ := step_cases hs
      rcases hc with ⟨m, rfl, hm⟩ | ⟨-, hc, -⟩ | ⟨i, b, j, s2, j1, -, hj, -⟩ |
        ⟨-, hm, -⟩
      rotate_right
      · rcases hmain with h2 | h2 <;> (rw [hm] at h2; cases h2)
      · rcases stepMain_pc hm with ⟨rfl, -⟩ | ⟨rfl, -⟩ | ⟨-, h3, -⟩ | ⟨-, h3, -⟩ |
          ⟨-, h3, -⟩ | ⟨-, h3, -⟩ | ⟨-, h3, -⟩ | ⟨-, h3, -⟩
        · exact Or.inl rfl
        · exact Or.inr rfl
        all_goals first
          | (rcases hmain with h2 | h2 <;> (rw [h3] at h2; cases h2))
          | (rcases h3 with h3 | h3 | h3 <;> rcases hmain with h2 | h2 <;>
              (rw [h3] at h2; cases h2))
      · rw [hcron] at hc
        cases hc
      · rw [hearly.1] at hj
        simp at hj
    · obtain ⟨h3, -⟩ := parseFlags_ok hpf
      simp [run, runFrom, step, stepMain, State.init, hpf, flagArgsFrom, h3, hps]
  · intro i b s1 hs
    obtain ⟨j, s2, j1, hj, hsj, rfl, hset, hf, hr, hr1, -⟩ := step_job_cases hi hs
    refine ⟨hr, hr1, hf.main_eq, hf.cron_eq, ?_, ?_⟩
    · simp [State.setJob, hf.jobs_eq]
    · intro k hk
      simp only [State.setJob]
      rw [hf.jobs_eq]
      exact getElem?_set_of_ne _ hk
  · intro i j hj hpc
    have hr := running_of_unreturned hi hj (by rw [hpc]; simp)
    have hstep : step cfg s (Action.job i (JobAct.start false)) =
        some ((finishJob s { j with cmd := some (s.programName, s.programArgs),
                                    startCalls := j.startCalls + 1 }
                Outcome.spawnFailed).1.setJob i
              (Job.finish { j with cmd := some (s.programName, s.programArgs),
                                   startCalls := j.startCalls + 1 }
                Outcome.spawnFailed)) := by
      rw [step_job_eq hr hj]
      simp [stepJob, hpc, finishJob]
    have hset : ((finishJob s { j with cmd := some (s.programName, s.programArgs),
                                       startCalls := j.startCalls + 1 }
                Outcome.spawnFailed).1.setJob i
              (Job.finish { j with cmd := some (s.programName, s.programArgs),
                                   startCalls := j.startCalls + 1 }
                Outcome.spawnFailed)).jobs[i]? =
        some (Job.finish { j with cmd := some (s.programName, s.programArgs),
                                  startCalls := j.startCalls + 1 }
                Outcome.spawnFailed) := by
      have hjobs : (finishJob s { j with cmd := some (s.programName, s.programArgs),
                                         startCalls := j.startCalls + 1 }
                Outcome.spawnFailed).1.jobs = s.jobs := by
        simp only [finishJob]
        split <;> rfl
      simp only [State.setJob]
      rw [hjobs]
      exact getElem?_set_of_some _ hj
    have hsp : j.spawned = false := by
      have hjo := hi.jobs_ok i j hj
      cases hc : j.spawned
      · rfl
      · have hne : j.outcome = none := hjo.outcome_none.mpr (by rw [hpc]; simp)
        rcases hjo.spawned.mp hc with h1 | h1 | h1 | h1 | h1
        · rw [hpc] at h1; cases h1
        · rw [hpc] at h1; cases h1
        · rw [hne] at h1; cases h1
        · rw [hne] at h1; cases h1
        · rw [hne] at h1; cases h1
    exact ⟨_, _, hstep, hset, rfl, rfl, hsp⟩
  · intro c hs hc
    rcases hi.exit_code c hs with ⟨h0, hm, -⟩ | ⟨h0, hm, -⟩ | ⟨h0, -⟩
    · have he := hi.early (Or.inl hm)
      refine ⟨Or.inr h0, ?_, he.1⟩
      cases hcr : s.cronRunning
      · rfl
      · rcases hi.cron.mp hcr with h1 | h1 <;> (rw [hm] at h1; cases h1)
    · have he := hi.early (Or.inr (Or.inl hm))
      refine ⟨Or.inl h0, ?_, he.1⟩
      cases hcr : s.cronRunning
      · rfl
      · rcases hi.cron.mp hcr with h1 | h1 <;> (rw [hm] at h1; cases h1)
    · exact (hc h0).elim

theorem errors_stay_local_witness :
    run cfgBadSchedule [Action.main MainAct.parseFlags] =
      some (stateAfter cfgBadSchedule [Action.main MainAct.parseFlags]) ∧
    (stateAfter cfgBadSchedule [Action.main MainAct.parseFlags]).cronRunning = false ∧
    (stateAfter cfgBadSchedule [Action.main MainAct.parseFlags]).jobs = [] ∧
    (run cfgBadSchedule [Action.main MainAct.parseFlags, Action.main MainAct.addFunc]).map
      (fun s1 => (s1.status, s1.cronRunning, s1.jobs)) = some (Status.exited 1, false, []) ∧
    run cfgRecurring failedStart = some (stateAfter cfgRecurring failedStart) ∧
    step cfgRecurring (stateAfter cfgRecurring failedStart)
        (Action.job 0 (JobAct.start false)) =
      some (stateAfter cfgRecurring (failedStart ++ [Action.job 0 (JobAct.start false)])) ∧
    (stateAfter cfgRecurring
      (failedStart ++ [Action.job 0 (JobAct.start false)])).status = Status.running ∧
    (stateAfter cfgRecurring
      (failedStart ++ [Action.job 0 (JobAct.start false)])).cronRunning = true :=
  have hw := (errors_stay_local cfgBadSchedule [Action.main MainAct.parseFlags]
    (stateAfter cfgBadSchedule [Action.main MainAct.parseFlags]) rfl).1 rfl rfl
  have hv := (errors_stay_local cfgRecurring failedStart
    (stateAfter cfgRecurring failedStart) rfl).2.1 0 (JobAct.start false)
    (stateAfter cfgRecurring (failedStart ++ [Action.job 0 (JobAct.start false)])) rfl
  ⟨rfl, hw.1, hw.2.1, hw.2.2.2.2, rfl, rfl, hv.2.1, hv.2.2.2.1⟩

/-- C10: in every execution and for every firing, `Signal(os.Interrupt)` is
called at most once, and only by the terminate case of the outer select: on
a started process, with `terminate` closed, before the run's completion has
been observed.  A firing that observed the completion first (outcome
`completed`) sent no interrupt and never entered the inner select, the only
place where `kill` is read; a firing whose process failed to start sent no
interrupt and entered no wait. -/
theorem interrupt_at_most_once (cfg : Config) (as : List Action) (s : State)
    (h : run cfg as = some s) :
    ∀ (i : Nat) (j : Job), s.jobs[i]? = some j →
      j.interrupts ≤ 1 ∧
      (0 < j.interrupts →
        j.spawned = true ∧ j.sawTerminate = true ∧ 0 < s.terminate) ∧
      (j.outcome = some Outcome.completed →
        j.interrupts = 0 ∧ j.sawTerminate = false) ∧
      (j.outcome = some Outcome.spawnFailed →
        j.interrupts = 0 ∧ j.spawned = false ∧ j.sawTerminate = false ∧
        j.waitClosed = false) ∧
      (∀ (b : JobAct) (s1 : State) (j1 : Job), step cfg s (Action.job i b) = some s1 →
        s1.jobs[i]? = some j1 → j1.interrupts ≠ j.interrupts →
        (∃ ok, b = JobAct.terminateSeen ok) ∧ j.pc = JobPc.running ∧ j.spawned = true ∧
          j.outcome = none ∧ 0 < s.terminate ∧ j.interrupts = 0 ∧ j1.interrupts = 1 ∧
          j1.pc = JobPc.interrupting) ∧
      (j.pc = JobPc.running → ∀ (s1 : State) (j1 : Job),
        step cfg s (Action.job i JobAct.waitSeen) = some s1 → s1.jobs[i]? = some j1 →
        j1.pc = JobPc.returned ∧ j1.outcome = some Outcome.completed ∧
          j1.interrupts = 0 ∧ j1.sawTerminate = false) := by
  have hi := inv_run h
  intro i j hj
  have hjo := hi.jobs_ok i j hj
  have hint := hjo.interrupts
  refine ⟨?_, ?_, ?_, ?_, ?_, ?_⟩
  · rw [hint]
    split <;> simp
  · intro hp
    have hsaw : j.sawTerminate = true := by
      by_contra hc
      rw [hint, if_neg hc] at hp
      omega
    refine ⟨?_, hsaw, hjo.saw_term hsaw⟩
    rcases hjo.saw.mp hsaw with h1 | h1 | h1
    · exact hjo.spawned.mpr (Or.inr (Or.inl h1))
    · exact hjo.spawned.mpr (Or.inr (Or.inr (Or.inr (Or.inl h1))))
    · exact hjo.spawned.mpr (Or.inr (Or.inr (Or.inr (Or.inr h1))))
  · intro ho
    have hpc : j.pc = JobPc.returned := by
      by_contra hne
      have := hjo.outcome_none.mpr hne
      rw [ho] at this
      cases this
    have hsaw : ¬ j.sawTerminate = true := by
      intro hc
      rcases hjo.saw.mp hc with h1 | h1 | h1
      · rw [hpc] at h1; cases h1
      · rw [ho] at h1; cases h1
      · rw [ho] at h1; cases h1
    refine ⟨by rw [hint, if_neg hsaw], by simpa using hsaw⟩
  · intro ho
    have hpc : j.pc = JobPc.returned := by
      by_contra hne
      have := hjo.outcome_none.mpr hne
      rw [ho] at this
      cases this
    have hsaw : ¬ j.sawTerminate = true := by
      intro hc
      rcases hjo.saw.mp hc with h1 | h1 | h1
      · rw [hpc] at h1; cases h1
      · rw [ho] at h1; cases h1
      · rw [ho] at h1; cases h1
    have hsp : ¬ j.spawned = true := by
      intro hc
      rcases hjo.spawned.mp hc with h1 | h1 | h1 | h1 | h1
      · rw [hpc] at h1; cases h1
      · rw [hpc] at h1; cases h1
      · rw [ho] at h1; cases h1
      · rw [ho] at h1; cases h1
      · rw [ho] at h1; cases h1
    have hwc : ¬ j.waitClosed = true := fun hc => hsp (hjo.exited (hjo.waited hc))
    exact ⟨by rw [hint, if_neg hsaw], by simpa using hsp, by simpa using hsaw,
      by simpa using hwc⟩
  · intro b s1 j1 hs hj1 hne
    obtain ⟨j', s2, j1', hj', hsj, rfl, hset, -⟩ := step_job_cases hi hs
    rw [hj] at hj'
    cases hj'
    rw [hj1] at hset
    cases hset
    rcases stepJob_interrupts hsj with h1 | ⟨ok, hb, hpc, ht, hpc1, h1⟩
    · exact (hne h1).elim
    · have hsaw : ¬ j.sawTerminate = true := by
        intro hc
        rcases hjo.saw.mp hc with h2 | h2 | h2
        · rw [hpc] at h2; cases h2
        · have := hjo.outcome_none.mpr (by rw [hpc]; simp)
          rw [this] at h2; cases h2
        · have := hjo.outcome_none.mpr (by rw [hpc]; simp)
          rw [this] at h2; cases h2
      have h0 : j.interrupts = 0 := by rw [hint, if_neg hsaw]
      exact ⟨⟨ok, hb⟩, hpc, hjo.spawned.mpr (Or.inl hpc),
        hjo.outcome_none.mpr (by rw [hpc]; simp), ht, h0, by rw [h1, h0], hpc1⟩
  · intro hpc s1 j1 hs hj1
    obtain ⟨j', s2, j1', hj', hsj, rfl, hset, -, -, -, -, hjo1⟩ := step_job_cases hi hs
    rw [hj] at hj'
    cases hj'
    rw [hj1] at hset
    cases hset
    rcases stepJob_running hpc hsj with ⟨h1, -⟩ | ⟨-, -, h1, h2, -⟩ | ⟨ok, hb, -⟩
    · simp only [stepJob, hpc, finishJob] at hsj
      split at hsj
      · simp only [Option.some.injEq, Prod.mk.injEq] at hsj
        rw [← hsj.2] at h1
        simp [Job.finish] at h1
      · cases hsj
    · have hsaw : ¬ j1.sawTerminate = true := by
        intro hc
        rcases hjo1.saw.mp hc with h3 | h3 | h3
        · rw [h1] at h3; cases h3
        · rw [h2] at h3; cases h3
        · rw [h2] at h3; cases h3
      exact ⟨h1, h2, by rw [hjo1.interrupts, if_neg hsaw], by simpa using hsaw⟩
    · cases hb

theorem interrupt_at_most_once_witness :
    run cfgRecurring gracefulRun = some (stateAfter cfgRecurring gracefulRun) ∧
    ((stateAfter cfgRecurring gracefulRun).jobs.map Job.outcome =
      [some Outcome.completedAfterInterrupt]) ∧
    ((stateAfter cfgRecurring gracefulRun).jobs.map Job.interrupts = [1]) ∧
    ((stateAfter cfgRecurring gracefulRun).jobs.map Job.spawned = [true]) ∧
    ((stateAfter cfgRecurring gracefulRun).jobs.map Job.sawTerminate = [true]) ∧
    0 < (stateAfter cfgRecurring gracefulRun).terminate :=
  have hw := interrupt_at_most_once cfgRecurring gracefulRun
    (stateAfter cfgRecurring gracefulRun) rfl 0 _ rfl
  ⟨rfl, rfl, rfl, rfl, rfl, (hw.2.1 (by decide)).2.2⟩

end CronRuntime
